import Mathlib

/-!
Verification development for the json-schema-go validator.

The Go sources are shallowly embedded below: JSON values become the
inductive `Value`, compiled schema nodes become `SchemaNode`, the arena +
URI registry become `Registry`, the parser (`parser.Parse`,
`parseRootSchema`, `parseSubSchema`) becomes `parseVal` and friends, the
seal fixed point (`Validator.seal`) becomes `seal`, and the evaluator
(`vm.execSchema`, `vm.pseudoExec`, `vm.reportError`, `vm.Exec`,
`Validator.ValidateURI`) becomes `execSchema`, `pseudoExecWith`,
`reportError`, `vmExec` and `ValidateURI`.  Go's mutable `vm` receiver is
passed as an explicit `VMState`; Go error returns become an
`Option GoErr` that travels together with the mutated state, mirroring
the fact that in Go an early `return err` leaves the receiver in its
current (mutated) state.  Unbounded recursion (through `$ref`) is made
total with an explicit fuel argument; running out of fuel is reported by
the distinguished outcome `GoErr.fuelOut`, which the real program can
only mirror by failing to terminate.  JSON numbers (Go `float64`) are
modelled as rationals; every comparison appearing in the claims involves
only small decimal constants, on which rational and double arithmetic
agree.
-/

namespace JGo

/-- A dynamic JSON value, the `interface{}` tree produced by Go's
`encoding/json` (`nil`, `bool`, `float64`, `string`, `[]interface{}`,
`map[string]interface{}`).  Go object maps are represented as association
lists; the list order stands for the (runtime-chosen) enumeration order
of the Go map, which Go deliberately randomizes. -/
inductive Value where
  | null
  | bool (b : Bool)
  | num (q : ℚ)
  | str (s : String)
  | arr (elems : List Value)
  | obj (members : List (String × Value))

/-- Lookup of a key in a Go map modelled as an association list. -/
def lookupMember : List (String × Value) → String → Option Value
  | [], _ => none
  | (k', v) :: rest, k => if k' = k then some v else lookupMember rest k

mutual

/-- Embeds `reflect.DeepEqual` on decoded JSON values: maps compare by
key set and per-key values, arrays pointwise, scalars by value. -/
def deepEqual : Value → Value → Bool
  | .null, .null => true
  | .bool a, .bool b => a == b
  | .num a, .num b => a == b
  | .str a, .str b => a == b
  | .arr a, .arr b => deepEqualList a b
  | .obj a, .obj b => a.length == b.length && deepEqualMembers a b
  | _, _ => false

/-- Pointwise `reflect.DeepEqual` on JSON arrays. -/
def deepEqualList : List Value → List Value → Bool
  | [], [] => true
  | x :: xs, y :: ys => deepEqual x y && deepEqualList xs ys
  | _, _ => false

/-- Per-key `reflect.DeepEqual` on JSON objects: every key of the first
map must be present in the second with a deep-equal value. -/
def deepEqualMembers : List (String × Value) → List (String × Value) → Bool
  | [], _ => true
  | (k, v) :: rest, b =>
    (match lookupMember b k with
     | some w => deepEqual v w
     | none => false) && deepEqualMembers rest b

end

/-- Modelled from the spec: Go's `net/url.URL` (an external collaborator);
only the split between the fragment and everything before it is relevant
to this package, so a URL is modelled as that pair. -/
structure URL where
  base : String
  fragment : String
deriving DecidableEq, Repr

/-- The zero `url.URL`. -/
def emptyURL : URL := ⟨"", ""⟩

/-- Drops the fragment, as in `baseURI.Fragment = ""`. -/
def clearFragment (u : URL) : URL := ⟨u.base, ""⟩

/-- Splitting a character list at every occurrence of a separator
(structural, so that it evaluates inside the kernel). -/
def splitChars (sep : Char) : List Char → List (List Char)
  | [] => [[]]
  | c :: rest =>
    let r := splitChars sep rest
    if c = sep then [] :: r
    else
      match r with
      | [] => [[c]]
      | g :: gs => (c :: g) :: gs

/-- Splitting a character list at the **first** occurrence of a
separator, when present. -/
def splitFirstChar (sep : Char) : List Char → List Char × Option (List Char)
  | [] => ([], none)
  | c :: rest =>
    if c = sep then ([], some rest)
    else
      let r := splitFirstChar sep rest
      (c :: r.1, r.2)

/-- Modelled from the spec: `url.Parse` of a URI string (an external
collaborator); splits off the fragment at the first `#`. -/
def urlParse (s : String) : URL :=
  let p := splitFirstChar '#' s.data
  ⟨⟨p.1⟩, ⟨p.2.getD []⟩⟩

/-- Modelled from the spec: RFC 3986 base-relative resolution
(`baseURI.Parse(refStr)`, an external collaborator), restricted to the
shapes the package exercises: a pure fragment reference keeps the base,
any other reference replaces it. -/
def urlResolve (base : URL) (ref : String) : URL :=
  match ref.data with
  | '#' :: frag => ⟨base.base, ⟨frag⟩⟩
  | _ =>
    let u := urlParse ref
    if u.base = "" then ⟨base.base, u.fragment⟩ else u

/-- Modelled from the spec: RFC 6901 unescaping (`~1` to `/`, `~0` to
`~`) done by the external JSON-Pointer utility. -/
def unescapeChars : List Char → List Char
  | '~' :: '1' :: rest => '/' :: unescapeChars rest
  | '~' :: '0' :: rest => '~' :: unescapeChars rest
  | c :: rest => c :: unescapeChars rest
  | [] => []

/-- Modelled from the spec: RFC 6901 escaping done by the external
JSON-Pointer utility. -/
def escapeChars : List Char → List Char
  | '~' :: rest => '~' :: '0' :: escapeChars rest
  | '/' :: rest => '~' :: '1' :: escapeChars rest
  | c :: rest => c :: escapeChars rest
  | [] => []

/-- Modelled from the spec: `jsonpointer.New` — the empty string is the
empty pointer, otherwise the string must start with `/` and is split on
`/` into unescaped tokens; anything else is an error (`none`). -/
def ptrParse (s : String) : Option (List String) :=
  match s.data with
  | [] => some []
  | '/' :: rest => some ((splitChars '/' rest).map fun tok => ⟨unescapeChars tok⟩)
  | _ => none

/-- Modelled from the spec: `jsonpointer.Ptr.String` — renders a token
list back to `/tok/tok` form with escaping. -/
def ptrRender (tokens : List String) : String :=
  ⟨tokens.foldr (fun t acc => '/' :: (escapeChars t.data ++ acc)) []⟩

/-- Decimal digit-string parsing (structural stand-in for
`strconv.Atoi` on array-index pointer tokens). -/
def digitsToNatAux : List Char → Nat → Option Nat
  | [], acc => some acc
  | c :: rest, acc =>
    if '0' ≤ c ∧ c ≤ '9' then digitsToNatAux rest (acc * 10 + (c.toNat - 48))
    else none

/-- Parses a non-empty all-digit string as a natural number. -/
def strToNatQ (s : String) : Option Nat :=
  match s.data with
  | [] => none
  | l => digitsToNatAux l 0

/-- Modelled from the spec: `jsonpointer.Ptr.Eval` — navigates a raw
JSON value along the token list (object member or array index). -/
def ptrEval : List String → Value → Option Value
  | [], v => some v
  | t :: rest, .obj m =>
    match lookupMember m t with
    | some v => ptrEval rest v
    | none => none
  | t :: rest, .arr l =>
    match strToNatQ t with
    | some i =>
      match l.get? i with
      | some v => ptrEval rest v
      | none => none
    | none => none
  | _, _ => none

/-- Substring containment on the underlying character lists. -/
def strContainsSub (hay pat : String) : Bool :=
  (List.range (hay.toList.length + 1)).any
    (fun i => pat.toList.isPrefixOf (hay.toList.drop i))

/-- Modelled from the spec: a compiled regular expression (external RE2
library), keeping its source text. -/
structure Regex where
  source : String
deriving DecidableEq, Repr

/-- Modelled from the spec: `Regexp.MatchString` is an "unanchored
substring search"; it is modelled for literal patterns as substring
containment.  No claim depends on regex semantics beyond that. -/
def regexMatch (r : Regex) (s : String) : Bool :=
  strContainsSub s r.source

/-- Modelled from the spec: `regexp.Compile`; compilation failures of
exotic patterns are outside the claims, so compilation always succeeds
here. -/
def regexCompile (s : String) : Option Regex := some ⟨s⟩

/-- The seven simple types (`jsonType` in schema.go). -/
inductive JSONType where
  | null
  | boolean
  | number
  | integer
  | string
  | array
  | object
deriving DecidableEq, Repr

/-- `schemaType`: the value of a `type` keyword. -/
structure SchemaType where
  isSingle : Bool
  types : List JSONType
deriving DecidableEq, Repr

/-- `schemaType.contains`. -/
def SchemaType.containsT (t : SchemaType) (typ : JSONType) : Bool :=
  t.types.contains typ

/-- `schemaRef`: the `Schema` field is the arena index of the target,
back-patched by `PopulateRefs` (zero until then, like the Go zero
value). -/
structure SchemaRef where
  uri : URL
  baseURI : URL
  ptr : List String
  schema : Nat
deriving DecidableEq, Repr

/-- `schemaItems`. -/
structure SchemaItems where
  isSingle : Bool
  schemas : List Nat
deriving DecidableEq, Repr

/-- `schemaDependency`: either a subschema (arena index) or a list of
required property names. -/
inductive SchemaDep where
  | schema (idx : Nat)
  | props (names : List String)

/-- The compiled schema node (`schema` in schema.go of the current
iteration).  Each Go `IsSet`/value pair is an `Option`.  The Go
`Properties`, `PatternProperties` and `Dependencies` fields are maps;
like every Go map in this embedding they are represented as association
lists, one list per enumeration order.  `Properties` is only ever looked
up by key, so its order is immaterial; `PatternProperties` and
`Dependencies` are *ranged over* by the evaluator on every validate
call, and Go randomizes that enumeration per call, so a theorem about a
fixed node fixes one enumeration — results about error-list order
transfer to the program only when those lists have at most one entry. -/
structure SchemaNode where
  boolSchema : Option Bool := none
  id : URL := emptyURL
  ref : Option SchemaRef := none
  notKw : Option Nat := none
  ifKw : Option Nat := none
  thenKw : Option Nat := none
  elseKw : Option Nat := none
  typ : Option SchemaType := none
  items : Option SchemaItems := none
  additionalItems : Option Nat := none
  constKw : Option Value := none
  enum : Option (List Value) := none
  multipleOf : Option ℚ := none
  maximum : Option ℚ := none
  minimum : Option ℚ := none
  exclusiveMaximum : Option ℚ := none
  exclusiveMinimum : Option ℚ := none
  maxLength : Option Int := none
  minLength : Option Int := none
  pattern : Option Regex := none
  maxItems : Option Int := none
  minItems : Option Int := none
  uniqueItems : Option Bool := none
  contains : Option Nat := none
  maxProperties : Option Int := none
  minProperties : Option Int := none
  required : Option (List String) := none
  properties : Option (List (String × Nat)) := none
  patternProperties : Option (List (Regex × Nat)) := none
  additionalProperties : Option Nat := none
  dependencies : Option (List (String × SchemaDep)) := none
  propertyNames : Option Nat := none
  allOf : Option (List Nat) := none
  anyOf : Option (List Nat) := none
  oneOf : Option (List Nat) := none

/-- The error values of the package.  `invalidSchema`, `missingURIs`,
`noSuchSchema` and `stackOverflow` are the exported errors (their
defining file is not under src/, but the spec's error taxonomy names
them); `maxErrorsSentinel` is the internal `errMaxErrors`;
`idNotURI`, `refPtrErr`, `ptrParseErr` and `ptrEvalErr` are the ad-hoc
`errors.New` values of parser.go, vm.go and validator.go; `panicIndex`
models a Go runtime panic from an out-of-range arena index; `fuelOut` is
the embedding's stand-in for non-termination. -/
inductive GoErr where
  | invalidSchema
  | idNotURI
  | refPtrErr
  | missingURIs (uris : List URL)
  | noSuchSchema
  | stackOverflow
  | maxErrorsSentinel
  | ptrParseErr
  | ptrEvalErr
  | panicIndex
  | fuelOut
deriving DecidableEq, Repr

/-- Modelled from the spec: the package-level constant `Epsilon` used by
parser.go (its defining file is not under src/); the spec fixes the
tolerance at ten to the minus three.  (Spelled with `mkRat` so that it
evaluates inside the kernel.) -/
def Epsilon : ℚ := mkRat 1 1000

/-- The constant `epsilon` of vm.go (`const epsilon = 1e-3`). -/
def epsilonVM : ℚ := mkRat 1 1000

/-- Lookup in the registry's `map[url.URL]int`. -/
def lookupURL : List (URL × Nat) → URL → Option Nat
  | [], _ => none
  | (u, i) :: rest, k => if u = k then some i else lookupURL rest k

/-- The registry: `schemas` is the URI-to-index map, `arena` the
append-only node arena. -/
structure Registry where
  schemas : List (URL × Nat) := []
  arena : List SchemaNode := []

/-- `arena.Get` / `registry.GetIndex`; `none` models the Go runtime
panic on an out-of-range index. -/
def Registry.getIdx (r : Registry) (i : Nat) : Option SchemaNode :=
  r.arena.get? i

/-- `registry.Insert`: deduplicates by URI, returning the existing index
and discarding the new node; otherwise appends to the arena. -/
def Registry.insert (r : Registry) (uri : URL) (s : SchemaNode) : Nat × Registry :=
  match lookupURL r.schemas uri with
  | some index => (index, r)
  | none =>
    (r.arena.length,
      { schemas := r.schemas ++ [(uri, r.arena.length)],
        arena := r.arena ++ [s] })

/-- `registry.Get`: looks up the index (zero when absent, like the Go
zero value) and **always** reads the arena at that index, so on an empty
arena the read panics (`none`) even before `ok` is consulted. -/
def Registry.get (r : Registry) (uri : URL) : Option (SchemaNode × Bool) :=
  let p := match lookupURL r.schemas uri with
    | some index => (index, true)
    | none => (0, false)
  match r.arena.get? p.1 with
  | some s => some (s, p.2)
  | none => none

/-- The node-by-node body of `registry.PopulateRefs`: for each node with
a `$ref`, look its target URI up in the URI map; on success write the
index into the node, on failure record the URI (with fragment) as
missing, in arena order. -/
def populateRefsAux (sch : List (URL × Nat)) :
    List SchemaNode → List URL × List SchemaNode
  | [] => ([], [])
  | s :: rest =>
    match s.ref with
    | none =>
      let p := populateRefsAux sch rest
      (p.1, s :: p.2)
    | some rf =>
      match lookupURL sch rf.uri with
      | some refIndex =>
        let s' := { s with ref := some { rf with schema := refIndex } }
        let p := populateRefsAux sch rest
        (p.1, s' :: p.2)
      | none =>
        let p := populateRefsAux sch rest
        (rf.uri :: p.1, s :: p.2)

/-- `registry.PopulateRefs`. -/
def Registry.populateRefs (r : Registry) : List URL × Registry :=
  let p := populateRefsAux r.schemas r.arena
  (p.1, { r with arena := p.2 })

/-- `p.URI()`: the current base URI with its fragment replaced by the
rendered JSON Pointer of the token stack. -/
def mintURI (baseURI : URL) (tokens : List String) : URL :=
  ⟨baseURI.base, ptrRender tokens⟩

/-- The integer part produced by `math.Modf`: truncation toward zero. -/
def ratTrunc (q : ℚ) : Int := if 0 ≤ q then ⌊q⌋ else ⌈q⌉

/-- `parseJSONType`. -/
def parseJSONType (t : String) : Except GoErr JSONType :=
  if t = "null" then .ok .null
  else if t = "boolean" then .ok .boolean
  else if t = "number" then .ok .number
  else if t = "integer" then .ok .integer
  else if t = "string" then .ok .string
  else if t = "array" then .ok .array
  else if t = "object" then .ok .object
  else .error .invalidSchema

/-- Element-wise `parseJSONType` over a `type` list (each element must
be a string). -/
def parseTypeList : List Value → Except GoErr (List JSONType)
  | [] => .ok []
  | .str t :: rest => do
    let jt ← parseJSONType t
    let l ← parseTypeList rest
    .ok (jt :: l)
  | _ :: _ => .error .invalidSchema

/-- The `type` keyword block of `parser.Parse`. -/
def parseTypeKw (m : List (String × Value)) : Except GoErr (Option SchemaType) :=
  match lookupMember m "type" with
  | none => .ok none
  | some (.str t) => do
    let jt ← parseJSONType t
    .ok (some ⟨true, [jt]⟩)
  | some (.arr ts) => do
    let l ← parseTypeList ts
    .ok (some ⟨false, l⟩)
  | some _ => .error .invalidSchema

/-- A numeric keyword block (`multipleOf`, `maximum`, …): the value must
be a JSON number. -/
def parseNumKw (m : List (String × Value)) (key : String) : Except GoErr (Option ℚ) :=
  match lookupMember m key with
  | none => .ok none
  | some (.num q) => .ok (some q)
  | some _ => .error .invalidSchema

/-- A natural-valued keyword block (`maxLength`, `minItems`, …),
mirroring the Go code verbatim: `i, rem := math.Modf(v)`; reject when
`rem > Epsilon`, then when `i < 0`; otherwise keep `int(i)`. -/
def parseNatKw (m : List (String × Value)) (key : String) : Except GoErr (Option Int) :=
  match lookupMember m key with
  | none => .ok none
  | some (.num q) =>
    let ipart := ratTrunc q
    let rem := q - (ipart : ℚ)
    if Epsilon < rem then .error .invalidSchema
    else if ipart < 0 then .error .invalidSchema
    else .ok (some ipart)
  | some _ => .error .invalidSchema

/-- The `uniqueItems` keyword block: the value must be a boolean. -/
def parseBoolKw (m : List (String × Value)) (key : String) : Except GoErr (Option Bool) :=
  match lookupMember m key with
  | none => .ok none
  | some (.bool b) => .ok (some b)
  | some _ => .error .invalidSchema

/-- A list of JSON values that must all be strings (`required`,
dependency lists). -/
def parseStrList : List Value → Except GoErr (List String)
  | [] => .ok []
  | .str s :: rest => do
    let l ← parseStrList rest
    .ok (s :: l)
  | _ :: _ => .error .invalidSchema

/-- The `$id` keyword block, applied only at a document root (empty
token stack): returns the updated base URI and the node's `ID`. -/
def parseIdKw (baseURI : URL) (tokens : List String) (m : List (String × Value)) :
    Except GoErr (URL × URL) :=
  if tokens.isEmpty then
    match lookupMember m "$id" with
    | none => .ok (baseURI, emptyURL)
    | some (.str idStr) =>
      let uri := urlParse idStr
      .ok (uri, uri)
    | some _ => .error .invalidSchema
  else .ok (baseURI, emptyURL)

/-- The `$ref` keyword block: resolve against the base URI, clear the
fragment for the base form, parse the fragment as a JSON Pointer. -/
def parseRefKw (baseURI : URL) (m : List (String × Value)) :
    Except GoErr (Option SchemaRef) :=
  match lookupMember m "$ref" with
  | none => .ok none
  | some (.str refStr) =>
    let uri := urlResolve baseURI refStr
    let refBase := clearFragment uri
    match ptrParse uri.fragment with
    | none => .error .refPtrErr
    | some ptrTokens => .ok (some ⟨uri, refBase, ptrTokens, 0⟩)
  | some _ => .error .invalidSchema

/-- The type of the parser's recursive worker, abstracted so the loop
helpers below stay structurally recursive. -/
abbrev ParseFn := URL → List String → Value → Registry → Except GoErr (Nat × Registry)

/-- A keyword whose value is a single subschema (`not`, `if`, `then`,
`else`, `contains`, `additionalItems`, `additionalProperties`,
`propertyNames`): push the keyword token and recurse. -/
def parseSubKw (p : ParseFn) (baseURI : URL) (tokens : List String)
    (m : List (String × Value)) (key : String) (reg : Registry) :
    Except GoErr (Option Nat × Registry) :=
  match lookupMember m key with
  | none => .ok (none, reg)
  | some v => do
    let r ← p baseURI (tokens ++ [key]) v reg
    .ok (some r.1, r.2)

/-- A list of subschemas under index tokens (`items` tuple form,
`allOf`, `anyOf`, `oneOf`). -/
def parseIdxList (p : ParseFn) (baseURI : URL) (tokens : List String) :
    List Value → Nat → Registry → Except GoErr (List Nat × Registry)
  | [], _, reg => .ok ([], reg)
  | v :: rest, i, reg => do
    let r ← p baseURI (tokens ++ [toString i]) v reg
    let r2 ← parseIdxList p baseURI tokens rest (i + 1) r.2
    .ok (r.1 :: r2.1, r2.2)

/-- The `items` keyword block: an array is the tuple form, anything else
is parsed as a single subschema. -/
def parseItemsKw (p : ParseFn) (baseURI : URL) (tokens : List String)
    (m : List (String × Value)) (reg : Registry) :
    Except GoErr (Option SchemaItems × Registry) :=
  match lookupMember m "items" with
  | none => .ok (none, reg)
  | some (.arr vals) => do
    let r ← parseIdxList p baseURI (tokens ++ ["items"]) vals 0 reg
    .ok (some ⟨false, r.1⟩, r.2)
  | some v => do
    let r ← p baseURI (tokens ++ ["items"]) v reg
    .ok (some ⟨true, [r.1]⟩, r.2)

/-- The member loop of the `properties` keyword block. -/
def parsePropsList (p : ParseFn) (baseURI : URL) (tokens : List String) :
    List (String × Value) → Registry → Except GoErr (List (String × Nat) × Registry)
  | [], reg => .ok ([], reg)
  | (name, v) :: rest, reg => do
    let r ← p baseURI (tokens ++ [name]) v reg
    let r2 ← parsePropsList p baseURI tokens rest r.2
    .ok ((name, r.1) :: r2.1, r2.2)

/-- The member loop of the `patternProperties` keyword block: compile
the key as a regex, parse the value as a subschema. -/
def parsePatProps (p : ParseFn) (baseURI : URL) (tokens : List String) :
    List (String × Value) → Registry → Except GoErr (List (Regex × Nat) × Registry)
  | [], reg => .ok ([], reg)
  | (name, v) :: rest, reg =>
    match regexCompile name with
    | none => .error .invalidSchema
    | some rx => do
      let r ← p baseURI (tokens ++ [name]) v reg
      let r2 ← parsePatProps p baseURI tokens rest r.2
      .ok ((rx, r.1) :: r2.1, r2.2)

/-- The member loop of the `dependencies` keyword block: an array value
is a list of property names (all strings), anything else is parsed as a
subschema. -/
def parseDepsList (p : ParseFn) (baseURI : URL) (tokens : List String) :
    List (String × Value) → Registry → Except GoErr (List (String × SchemaDep) × Registry)
  | [], reg => .ok ([], reg)
  | (key, .arr vals) :: rest, reg => do
    let names ← parseStrList vals
    let r2 ← parseDepsList p baseURI tokens rest reg
    .ok ((key, .props names) :: r2.1, r2.2)
  | (key, v) :: rest, reg => do
    let r ← p baseURI (tokens ++ [key]) v reg
    let r2 ← parseDepsList p baseURI tokens rest r.2
    .ok ((key, .schema r.1) :: r2.1, r2.2)

/-- A keyword whose value must be an array of subschemas (`allOf`,
`anyOf`, `oneOf`). -/
def parseSchemaListKw (p : ParseFn) (baseURI : URL) (tokens : List String)
    (m : List (String × Value)) (key : String) (reg : Registry) :
    Except GoErr (Option (List Nat) × Registry) :=
  match lookupMember m key with
  | none => .ok (none, reg)
  | some (.arr vals) => do
    let r ← parseIdxList p baseURI (tokens ++ [key]) vals 0 reg
    .ok (some r.1, r.2)
  | some _ => .error .invalidSchema

/-- The `enum` keyword block of `parser.Parse`: the value must be an
array, kept verbatim. -/
def parseEnumKw (m : List (String × Value)) : Except GoErr (Option (List Value)) :=
  match lookupMember m "enum" with
  | none => Except.ok none
  | some (.arr vals) => Except.ok (some vals)
  | some _ => Except.error GoErr.invalidSchema

/-- The `pattern` keyword block of `parser.Parse`: the value must be a
string that compiles as a regular expression. -/
def parsePatternKw (m : List (String × Value)) : Except GoErr (Option Regex) :=
  match lookupMember m "pattern" with
  | none => Except.ok none
  | some (.str s) =>
    match regexCompile s with
    | some rx => Except.ok (some rx)
    | none => Except.error GoErr.invalidSchema
  | some _ => Except.error GoErr.invalidSchema

/-- The `required` keyword block of `parser.Parse`: the value must be an
array of strings. -/
def parseReqdKw (m : List (String × Value)) : Except GoErr (Option (List String)) :=
  match lookupMember m "required" with
  | none => Except.ok none
  | some (.arr vals) => (parseStrList vals).map some
  | some _ => Except.error GoErr.invalidSchema

/-- The `properties` keyword block of `parser.Parse`. -/
def parsePropsKw (p : ParseFn) (baseURI : URL) (tokens : List String)
    (m : List (String × Value)) (reg : Registry) :
    Except GoErr (Option (List (String × Nat)) × Registry) :=
  match lookupMember m "properties" with
  | none => Except.ok ((none : Option (List (String × Nat))), reg)
  | some (.obj props) => do
    let r ← parsePropsList p baseURI (tokens ++ ["properties"]) props reg
    Except.ok (some r.1, r.2)
  | some _ => Except.error GoErr.invalidSchema

/-- The `patternProperties` keyword block of `parser.Parse`. -/
def parsePatPropsKw (p : ParseFn) (baseURI : URL) (tokens : List String)
    (m : List (String × Value)) (reg : Registry) :
    Except GoErr (Option (List (Regex × Nat)) × Registry) :=
  match lookupMember m "patternProperties" with
  | none => Except.ok ((none : Option (List (Regex × Nat))), reg)
  | some (.obj props) => do
    let r ← parsePatProps p baseURI (tokens ++ ["patternProperties"]) props reg
    Except.ok (some r.1, r.2)
  | some _ => Except.error GoErr.invalidSchema

/-- The `dependencies` keyword block of `parser.Parse`. -/
def parseDepsKw (p : ParseFn) (baseURI : URL) (tokens : List String)
    (m : List (String × Value)) (reg : Registry) :
    Except GoErr (Option (List (String × SchemaDep)) × Registry) :=
  match lookupMember m "dependencies" with
  | none => Except.ok ((none : Option (List (String × SchemaDep))), reg)
  | some (.obj deps) => do
    let r ← parseDepsList p baseURI (tokens ++ ["dependencies"]) deps reg
    Except.ok (some r.1, r.2)
  | some _ => Except.error GoErr.invalidSchema

/-- `parser.Parse`: translates a raw JSON value into a schema node,
recursing into subschema keywords in the source's keyword order, and
finally inserts the node into the registry at its minted URI.  One unit
of fuel is consumed per nesting level. -/
def parseVal : Nat → URL → List String → Value → Registry → Except GoErr (Nat × Registry)
  | 0, _, _, _, _ => .error .fuelOut
  | fuel + 1, baseURI0, tokens, input, reg0 =>
    match input with
    | .bool b =>
      .ok (Registry.insert reg0 (mintURI baseURI0 tokens) { boolSchema := some b })
    | .obj m => do
      let p : ParseFn := fun b t v r => parseVal fuel b t v r
      let idp ← parseIdKw baseURI0 tokens m
      let baseURI := idp.1
      let ref ← parseRefKw baseURI m
      let rNot ← parseSubKw p baseURI tokens m "not" reg0
      let rIf ← parseSubKw p baseURI tokens m "if" rNot.2
      let rThen ← parseSubKw p baseURI tokens m "then" rIf.2
      let rElse ← parseSubKw p baseURI tokens m "else" rThen.2
      let typ ← parseTypeKw m
      let rItems ← parseItemsKw p baseURI tokens m rElse.2
      let constV := lookupMember m "const"
      let enumV ← parseEnumKw m
      let mult ← parseNumKw m "multipleOf"
      let maxV ← parseNumKw m "maximum"
      let minV ← parseNumKw m "minimum"
      let exMax ← parseNumKw m "exclusiveMaximum"
      let exMin ← parseNumKw m "exclusiveMinimum"
      let maxLen ← parseNatKw m "maxLength"
      let minLen ← parseNatKw m "minLength"
      let pat ← parsePatternKw m
      let rAddItems ← parseSubKw p baseURI tokens m "additionalItems" rItems.2
      let maxIt ← parseNatKw m "maxItems"
      let minIt ← parseNatKw m "minItems"
      let uniq ← parseBoolKw m "uniqueItems"
      let rContains ← parseSubKw p baseURI tokens m "contains" rAddItems.2
      let maxProps ← parseNatKw m "maxProperties"
      let minProps ← parseNatKw m "minProperties"
      let reqd ← parseReqdKw m
      let rProps ← parsePropsKw p baseURI tokens m rContains.2
      let rPatProps ← parsePatPropsKw p baseURI tokens m rProps.2
      let rAddProps ← parseSubKw p baseURI tokens m "additionalProperties" rPatProps.2
      let rDeps ← parseDepsKw p baseURI tokens m rAddProps.2
      let rPropNames ← parseSubKw p baseURI tokens m "propertyNames" rDeps.2
      let rAllOf ← parseSchemaListKw p baseURI tokens m "allOf" rPropNames.2
      let rAnyOf ← parseSchemaListKw p baseURI tokens m "anyOf" rAllOf.2
      let rOneOf ← parseSchemaListKw p baseURI tokens m "oneOf" rAnyOf.2
      let node : SchemaNode :=
        { boolSchema := none
          id := idp.2
          ref := ref
          notKw := rNot.1
          ifKw := rIf.1
          thenKw := rThen.1
          elseKw := rElse.1
          typ := typ
          items := rItems.1
          additionalItems := rAddItems.1
          constKw := constV
          enum := enumV
          multipleOf := mult
          maximum := maxV
          minimum := minV
          exclusiveMaximum := exMax
          exclusiveMinimum := exMin
          maxLength := maxLen
          minLength := minLen
          pattern := pat
          maxItems := maxIt
          minItems := minIt
          uniqueItems := uniq
          contains := rContains.1
          maxProperties := maxProps
          minProperties := minProps
          required := reqd
          properties := rProps.1
          patternProperties := rPatProps.1
          additionalProperties := rAddProps.1
          dependencies := rDeps.1
          propertyNames := rPropNames.1
          allOf := rAllOf.1
          anyOf := rAnyOf.1
          oneOf := rOneOf.1 }
      .ok (Registry.insert rOneOf.2 (mintURI baseURI tokens) node)
    | _ => .error .invalidSchema

/-- `parseRootSchema` followed by `registry.GetIndex`, as in
`parseSubSchema`: returns the parsed node itself. -/
def parseRootNode (fuel : Nat) (input : Value) (reg : Registry) :
    Except GoErr (SchemaNode × Registry) := do
  let r ← parseVal fuel emptyURL [] input reg
  match r.2.getIdx r.1 with
  | some node => .ok (node, r.2)
  | none => .error .panicIndex

/-- Lookup in the seal phase's `rawSchemas` map. -/
def lookupRaw : List (URL × Value) → URL → Option Value
  | [], _ => none
  | (u, v) :: rest, k => if u = k then some v else lookupRaw rest k

/-- Go map assignment `rawSchemas[key] = value`: replace or append. -/
def updateRaw : List (URL × Value) → URL → Value → List (URL × Value)
  | [], k, v => [(k, v)]
  | (u, w) :: rest, k, v =>
    if u = k then (k, v) :: rest else (u, w) :: updateRaw rest k v

/-- The initial loop of `Validator.seal`: parse each document as a root
schema and record its raw value under the parsed `$id`. -/
def sealDocs (pfuel : Nat) :
    List Value → List (URL × Value) → Registry →
    Except GoErr (List (URL × Value) × Registry)
  | [], raw, reg => .ok (raw, reg)
  | d :: rest, raw, reg => do
    let r ← parseRootNode pfuel d reg
    sealDocs pfuel rest (updateRaw raw r.1.id d) r.2

/-- One pass over a missing-URI list inside `Validator.seal`'s fixed
point: a URI whose fragment-less base has a raw document is parsed as a
subschema of that document at the fragment's pointer; otherwise the base
is appended to the undefined list. -/
def sealPass (pfuel : Nat) (raw : List (URL × Value)) :
    List URL → List URL → Registry → Except GoErr (List URL × Registry)
  | [], und, reg => .ok (und, reg)
  | uri :: rest, und, reg =>
    let base := clearFragment uri
    match lookupRaw raw base with
    | some rawSchema =>
      match ptrParse uri.fragment with
      | none => .error .ptrParseErr
      | some ptrTokens =>
        match ptrEval ptrTokens rawSchema with
        | none => .error .ptrEvalErr
        | some sub => do
          let r ← parseVal pfuel base ptrTokens sub reg
          sealPass pfuel raw rest und r.2
    | none => sealPass pfuel raw rest (und ++ [base]) reg

/-- The fixed-point loop of `Validator.seal`: while URIs are missing and
none is undefined, run a pass and re-populate refs; report
`ErrMissingURIs` with the undefined list of the final pass. -/
def sealLoop (pfuel : Nat) (raw : List (URL × Value)) :
    Nat → List URL → Registry → Except GoErr Registry
  | 0, _, _ => .error .fuelOut
  | fuel + 1, missing, reg =>
    if missing.isEmpty then .ok reg
    else do
      let pass ← sealPass pfuel raw missing [] reg
      let pr := pass.2.populateRefs
      if pass.1.isEmpty then sealLoop pfuel raw fuel pr.1 pr.2
      else .error (.missingURIs pass.1)

/-- `Validator.seal`: parse the roots, populate refs once, then iterate
to the fixed point.  `pfuel` bounds parser nesting, `lfuel` the number
of fixed-point passes. -/
def sealValidator (pfuel lfuel : Nat) (docs : List Value) : Except GoErr Registry := do
  let r ← sealDocs pfuel docs [] {}
  let pr := r.2.populateRefs
  sealLoop pfuel r.1 lfuel pr.1 pr.2

/-- The sealed validator: registry plus the two configured bounds. -/
structure GoValidator where
  registry : Registry
  maxStackDepth : Nat
  maxErrors : Nat

/-- `NewValidatorWithConfig`: seal the documents and keep the config. -/
def NewValidatorWithConfig (pfuel lfuel : Nat) (docs : List Value)
    (maxStackDepth maxErrors : Nat) : Except GoErr GoValidator :=
  (sealValidator pfuel lfuel docs).map fun reg => ⟨reg, maxStackDepth, maxErrors⟩

/-- `DefaultMaxStackDepth`. -/
def DefaultMaxStackDepth : Nat := 128

/-- `NewValidator`: the default configuration (`MaxStackDepth = 128`,
`MaxErrors = 0`). -/
def NewValidator (pfuel lfuel : Nat) (docs : List Value) : Except GoErr GoValidator :=
  NewValidatorWithConfig pfuel lfuel docs DefaultMaxStackDepth 0

/-- `schemaStack`: one frame of the evaluator's schema stack. -/
structure SchemaFrame where
  id : URL
  tokens : List String
deriving DecidableEq, Repr

/-- `ValidationError`. -/
structure VErr where
  instancePath : List String
  schemaPath : List String
  uri : URL
deriving DecidableEq, Repr

/-- `vmErrors`. -/
structure VMErrors where
  hasErrors : Bool
  errors : List VErr
deriving DecidableEq, Repr

/-- The mutable part of the Go `vm` receiver: the instance token stack,
the schema frame stack (most recent frame first; Go appends it at the
end of a slice) and the error accumulator. -/
structure VMState where
  instTokens : List String
  frames : List SchemaFrame
  errs : VMErrors
deriving DecidableEq, Repr

/-- A Go call on the `vm` receiver: the mutated state together with an
optional error (`return err` carries the state along in Go because the
receiver is shared). -/
abbrev ExecRes := VMState × Option GoErr

/-- Sequencing of Go statements with `if err != nil return err`
short-circuiting. -/
def andThen (r : ExecRes) (k : VMState → ExecRes) : ExecRes :=
  match r with
  | (st, none) => k st
  | (st, some e) => (st, some e)

/-- `vm.pushNewSchema`. -/
def pushNewSchema (st : VMState) (id : URL) (tokens : List String) : VMState :=
  { st with frames := ⟨id, tokens⟩ :: st.frames }

/-- `vm.popSchema`. -/
def popSchema (st : VMState) : VMState :=
  { st with frames := st.frames.tail }

/-- `vm.pushSchemaToken` (appends to the current frame; unreachable on
an empty frame stack, where Go would panic). -/
def pushSchemaToken (st : VMState) (token : String) : VMState :=
  match st.frames with
  | [] => st
  | f :: rest => { st with frames := { f with tokens := f.tokens ++ [token] } :: rest }

/-- `vm.popSchemaToken`. -/
def popSchemaToken (st : VMState) : VMState :=
  match st.frames with
  | [] => st
  | f :: rest => { st with frames := { f with tokens := f.tokens.dropLast } :: rest }

/-- `vm.pushInstanceToken`. -/
def pushInstanceToken (st : VMState) (token : String) : VMState :=
  { st with instTokens := st.instTokens ++ [token] }

/-- `vm.popInstanceToken`. -/
def popInstanceToken (st : VMState) : VMState :=
  { st with instTokens := st.instTokens.dropLast }

/-- `vm.reportError`: snapshot the current instance path and top frame,
append a `ValidationError`, set `hasErrors`, and return the
`errMaxErrors` sentinel exactly when the list length has reached
`maxErrors` (never for `maxErrors = 0`, since the length is positive
after an append). -/
def reportError (maxE : Nat) (st : VMState) : ExecRes :=
  let frame := st.frames.headD ⟨emptyURL, []⟩
  let e : VErr := ⟨st.instTokens, frame.tokens, frame.id⟩
  let errs' : VMErrors := ⟨true, st.errs.errors ++ [e]⟩
  let st' := { st with errs := errs' }
  if errs'.errors.length = maxE then (st', some .maxErrorsSentinel) else (st', none)

/-- The ubiquitous Go pattern `if cond { push token; reportError; pop }`. -/
def checkReport (maxE : Nat) (cond : Bool) (token : String) (st : VMState) : ExecRes :=
  if cond then
    let st := pushSchemaToken st token
    andThen (reportError maxE st) fun st => (popSchemaToken st, none)
  else (st, none)

/-- `checkReport` guarded by an `IsSet` keyword slot. -/
def checkOpt {α : Type} (maxE : Nat) (o : Option α) (cond : α → Bool)
    (token : String) (st : VMState) : ExecRes :=
  match o with
  | none => (st, none)
  | some a => checkReport maxE (cond a) token st

/-- `vm.pseudoExec`, parameterized by the recursive evaluator: swap in a
fresh error list, run, observe `hasErrors`, restore the caller's list —
but, exactly as in the Go code, **only on the error-free path**; an
early `return err` leaves the pseudo list in place. -/
def pseudoExecWith (exV : SchemaNode → Value → VMState → ExecRes)
    (s : SchemaNode) (inst : Value) (st : VMState) : (Bool × VMState) × Option GoErr :=
  let prev := st.errs
  let st1 := { st with errs := ⟨false, []⟩ }
  match exV s inst st1 with
  | (st2, none) => ((st2.errs.hasErrors, { st2 with errs := prev }), none)
  | (st2, some e) => ((false, st2), some e)

/-- The `$ref` block of `execSchema`: overflow check against
`maxStackDepth`, then push a frame, evaluate the target, pop. -/
def refBlock (reg : Registry) (maxD : Nat) (exV : SchemaNode → Value → VMState → ExecRes)
    (s : SchemaNode) (inst : Value) (st : VMState) : ExecRes :=
  match s.ref with
  | none => (st, none)
  | some rf =>
    if st.frames.length = maxD then (st, some .stackOverflow)
    else
      match reg.getIdx rf.schema with
      | none => (st, some .panicIndex)
      | some refSchema =>
        let st := pushNewSchema st rf.baseURI rf.ptr
        andThen (exV refSchema inst st) fun st => (popSchema st, none)

/-- The `not` block of `execSchema`. -/
def notBlock (reg : Registry) (maxE : Nat)
    (psV : SchemaNode → Value → VMState → (Bool × VMState) × Option GoErr)
    (s : SchemaNode) (inst : Value) (st : VMState) : ExecRes :=
  match s.notKw with
  | none => (st, none)
  | some idx =>
    match reg.getIdx idx with
    | none => (st, some .panicIndex)
    | some sub =>
      match psV sub inst st with
      | ((notErrors, st), none) => checkReport maxE (!notErrors) "not" st
      | ((_, st), some e) => (st, some e)

/-- The `if`/`then`/`else` block of `execSchema`: pseudo-exec the `if`
schema and descend into the branch picked by its outcome. -/
def ifBlock (reg : Registry) (exV : SchemaNode → Value → VMState → ExecRes)
    (psV : SchemaNode → Value → VMState → (Bool × VMState) × Option GoErr)
    (s : SchemaNode) (inst : Value) (st : VMState) : ExecRes :=
  match s.ifKw with
  | none => (st, none)
  | some idx =>
    match reg.getIdx idx with
    | none => (st, some .panicIndex)
    | some ifSchema =>
      match psV ifSchema inst st with
      | ((ifErrors, st), none) =>
        if !ifErrors then
          match s.thenKw with
          | none => (st, none)
          | some tIdx =>
            match reg.getIdx tIdx with
            | none => (st, some .panicIndex)
            | some tSchema =>
              let st := pushSchemaToken st "then"
              andThen (exV tSchema inst st) fun st => (popSchemaToken st, none)
        else
          match s.elseKw with
          | none => (st, none)
          | some eIdx =>
            match reg.getIdx eIdx with
            | none => (st, some .panicIndex)
            | some eSchema =>
              let st := pushSchemaToken st "else"
              andThen (exV eSchema inst st) fun st => (popSchemaToken st, none)
      | ((_, st), some e) => (st, some e)

/-- The `const` block of `execSchema` (`reflect.DeepEqual` mismatch). -/
def constBlock (maxE : Nat) (s : SchemaNode) (inst : Value) (st : VMState) : ExecRes :=
  match s.constKw with
  | none => (st, none)
  | some v => checkReport maxE (!deepEqual inst v) "const" st

/-- The `enum` block of `execSchema`. -/
def enumBlock (maxE : Nat) (s : SchemaNode) (inst : Value) (st : VMState) : ExecRes :=
  match s.enum with
  | none => (st, none)
  | some vals => checkReport maxE (!vals.any (fun v => deepEqual inst v)) "enum" st

/-- The element loop of the `allOf` block. -/
def allOfLoop (reg : Registry) (exV : SchemaNode → Value → VMState → ExecRes)
    (inst : Value) : List Nat → Nat → VMState → ExecRes
  | [], _, st => (st, none)
  | idx :: rest, i, st =>
    match reg.getIdx idx with
    | none => (st, some .panicIndex)
    | some sub =>
      let st := pushSchemaToken st (toString i)
      andThen (exV sub inst st) fun st =>
        allOfLoop reg exV inst rest (i + 1) (popSchemaToken st)

/-- The `allOf` block of `execSchema`. -/
def allOfBlock (reg : Registry) (exV : SchemaNode → Value → VMState → ExecRes)
    (s : SchemaNode) (inst : Value) (st : VMState) : ExecRes :=
  match s.allOf with
  | none => (st, none)
  | some idxs =>
    let st := pushSchemaToken st "allOf"
    andThen (allOfLoop reg exV inst idxs 0 st) fun st => (popSchemaToken st, none)

/-- The pseudo-exec loop of the `anyOf` block, short-circuiting on the
first subschema that accepts. -/
def anyOfLoop (reg : Registry)
    (psV : SchemaNode → Value → VMState → (Bool × VMState) × Option GoErr)
    (inst : Value) : List Nat → VMState → (Bool × VMState) × Option GoErr
  | [], st => ((false, st), none)
  | idx :: rest, st =>
    match reg.getIdx idx with
    | none => ((false, st), some .panicIndex)
    | some sub =>
      match psV sub inst st with
      | ((anyOfErrors, st), none) =>
        if anyOfErrors then anyOfLoop reg psV inst rest st else ((true, st), none)
      | r => r

/-- The `anyOf` block of `execSchema`. -/
def anyOfBlock (reg : Registry) (maxE : Nat)
    (psV : SchemaNode → Value → VMState → (Bool × VMState) × Option GoErr)
    (s : SchemaNode) (inst : Value) (st : VMState) : ExecRes :=
  match s.anyOf with
  | none => (st, none)
  | some idxs =>
    match anyOfLoop reg psV inst idxs st with
    | ((anyOfOk, st), none) => checkReport maxE (!anyOfOk) "anyOf" st
    | ((_, st), some e) => (st, some e)

/-- The pseudo-exec loop of the `oneOf` block, carrying the `oneOfOk`
toggle and breaking (with `false`) on a second success. -/
def oneOfLoop (reg : Registry)
    (psV : SchemaNode → Value → VMState → (Bool × VMState) × Option GoErr)
    (inst : Value) : List Nat → Bool → VMState → (Bool × VMState) × Option GoErr
  | [], ok, st => ((ok, st), none)
  | idx :: rest, ok, st =>
    match reg.getIdx idx with
    | none => ((ok, st), some .panicIndex)
    | some sub =>
      match psV sub inst st with
      | ((oneOfErrors, st), none) =>
        if !oneOfErrors then
          if ok then ((false, st), none)
          else oneOfLoop reg psV inst rest true st
        else oneOfLoop reg psV inst rest ok st
      | r => r

/-- The `oneOf` block of `execSchema`. -/
def oneOfBlock (reg : Registry) (maxE : Nat)
    (psV : SchemaNode → Value → VMState → (Bool × VMState) × Option GoErr)
    (s : SchemaNode) (inst : Value) (st : VMState) : ExecRes :=
  match s.oneOf with
  | none => (st, none)
  | some idxs =>
    match oneOfLoop reg psV inst idxs false st with
    | ((oneOfOk, st), none) => checkReport maxE (!oneOfOk) "oneOf" st
    | ((_, st), some e) => (st, some e)

/-- `math.Mod` (truncated remainder, sign of the dividend) for a
non-zero divisor; the Go behaviour at divisor zero (NaN, hence no
`multipleOf` error) is not exercised by any claim. -/
def ratGoMod (x y : ℚ) : ℚ := x - y * ((ratTrunc (x / y) : ℤ) : ℚ)

/-- The `type` test of the number arm: `typeOk` when `integer` is
allowed and the value is integral (`val == math.Round(val)` holds
exactly for integral values, i.e. denominator one), otherwise `number`
must be allowed. -/
def numTypeFails (t : SchemaType) (q : ℚ) : Bool :=
  !(t.containsT .integer && q.den == 1) && !t.containsT .number

/-- The `case float64` arm of `execSchema`'s instance switch. -/
def execNumber (maxE : Nat) (s : SchemaNode) (q : ℚ) (st : VMState) : ExecRes :=
  andThen (checkOpt maxE s.typ (fun ty => numTypeFails ty q) "type" st) fun st =>
  andThen (checkOpt maxE s.multipleOf (fun mo => |ratGoMod q mo| > epsilonVM) "multipleOf" st) fun st =>
  andThen (checkOpt maxE s.maximum (fun mx => q > mx) "maximum" st) fun st =>
  andThen (checkOpt maxE s.minimum (fun mn => q < mn) "minimum" st) fun st =>
  andThen (checkOpt maxE s.exclusiveMaximum (fun ex => q > ex - epsilonVM) "exclusiveMaximum" st) fun st =>
  checkOpt maxE s.exclusiveMinimum (fun ex => q < ex + epsilonVM) "exclusiveMinimum" st

/-- The `case string` arm of `execSchema`'s instance switch
(`utf8.RuneCountInString` is the character count). -/
def execString (maxE : Nat) (s : SchemaNode) (v : String) (st : VMState) : ExecRes :=
  andThen (checkOpt maxE s.typ (fun ty => !ty.containsT .string) "type" st) fun st =>
  andThen (checkOpt maxE s.maxLength (fun n => (v.length : Int) > n) "maxLength" st) fun st =>
  andThen (checkOpt maxE s.minLength (fun n => (v.length : Int) < n) "minLength" st) fun st =>
  checkOpt maxE s.pattern (fun rx => !regexMatch rx v) "pattern" st

/-- The duplicate scan of `uniqueItems` (`i < j` pairs, first offender
reports once). -/
def hasDup : List Value → Bool
  | [] => false
  | x :: rest => rest.any (fun y => deepEqual x y) || hasDup rest

/-- The pseudo-exec element loop of the `contains` block. -/
def containsLoop (reg : Registry)
    (psV : SchemaNode → Value → VMState → (Bool × VMState) × Option GoErr)
    (idx : Nat) : List Value → VMState → (Bool × VMState) × Option GoErr
  | [], st => ((false, st), none)
  | elem :: rest, st =>
    match reg.getIdx idx with
    | none => ((false, st), some .panicIndex)
    | some sub =>
      match psV sub elem st with
      | ((containsErrors, st), none) =>
        if containsErrors then containsLoop reg psV idx rest st else ((true, st), none)
      | r => r

/-- The `contains` block of the array arm. -/
def containsBlock (reg : Registry) (maxE : Nat)
    (psV : SchemaNode → Value → VMState → (Bool × VMState) × Option GoErr)
    (s : SchemaNode) (val : List Value) (st : VMState) : ExecRes :=
  match s.contains with
  | none => (st, none)
  | some idx =>
    match containsLoop reg psV idx val st with
    | ((containsOk, st), none) => checkReport maxE (!containsOk) "contains" st
    | ((_, st), some e) => (st, some e)

/-- The element loop shared by single-schema `items` and
`additionalItems`: push the element index as an instance token and
evaluate. -/
def execElems (exV : SchemaNode → Value → VMState → ExecRes)
    (sub : SchemaNode) : List Value → Nat → VMState → ExecRes
  | [], _, st => (st, none)
  | v :: rest, i, st =>
    let st := pushInstanceToken st (toString i)
    andThen (exV sub v st) fun st =>
      execElems exV sub rest (i + 1) (popInstanceToken st)

/-- The element-wise loop of tuple `items`, over
`min (len schemas) (len values)` positions. -/
def execTuple (reg : Registry) (exV : SchemaNode → Value → VMState → ExecRes) :
    List Nat → List Value → Nat → VMState → ExecRes
  | idx :: idxs, v :: vs, i, st =>
    match reg.getIdx idx with
    | none => (st, some .panicIndex)
    | some sub =>
      let tok := toString i
      let st := pushSchemaToken (pushInstanceToken st tok) tok
      andThen (exV sub v st) fun st =>
        execTuple reg exV idxs vs (i + 1) (popSchemaToken (popInstanceToken st))
  | _, _, _, st => (st, none)

/-- The `items` (+ `additionalItems`) block of the array arm. -/
def itemsBlock (reg : Registry) (exV : SchemaNode → Value → VMState → ExecRes)
    (s : SchemaNode) (val : List Value) (st : VMState) : ExecRes :=
  match s.items with
  | none => (st, none)
  | some its =>
    if its.isSingle then
      let st := pushSchemaToken st "items"
      match its.schemas.get? 0 with
      | none => (st, some .panicIndex)
      | some idx0 =>
        match reg.getIdx idx0 with
        | none => (st, some .panicIndex)
        | some sub =>
          andThen (execElems exV sub val 0 st) fun st => (popSchemaToken st, none)
    else
      let st := pushSchemaToken st "items"
      andThen (execTuple reg exV its.schemas val 0 st) fun st =>
      let st := popSchemaToken st
      match s.additionalItems with
      | none => (st, none)
      | some ai =>
        let st := pushSchemaToken st "additionalItems"
        match reg.getIdx ai with
        | none => (st, some .panicIndex)
        | some sub =>
          andThen (execElems exV sub (val.drop its.schemas.length) its.schemas.length st)
            fun st => (popSchemaToken st, none)

/-- The `case []interface{}` arm of `execSchema`'s instance switch. -/
def execArray (reg : Registry) (maxE : Nat)
    (exV : SchemaNode → Value → VMState → ExecRes)
    (psV : SchemaNode → Value → VMState → (Bool × VMState) × Option GoErr)
    (s : SchemaNode) (val : List Value) (st : VMState) : ExecRes :=
  andThen (checkOpt maxE s.typ (fun ty => !ty.containsT .array) "type" st) fun st =>
  andThen (checkOpt maxE s.maxItems (fun n => (val.length : Int) > n) "maxItems" st) fun st =>
  andThen (checkOpt maxE s.minItems (fun n => (val.length : Int) < n) "minItems" st) fun st =>
  andThen (match s.uniqueItems with
           | some true => checkReport maxE (hasDup val) "uniqueItems" st
           | _ => (st, none)) fun st =>
  andThen (containsBlock reg maxE psV s val st) fun st =>
  itemsBlock reg exV s val st

/-- Assoc lookup in a compiled `properties` map. -/
def lookupPropIdx : List (String × Nat) → String → Option Nat
  | [], _ => none
  | (k', i) :: rest, k => if k' = k then some i else lookupPropIdx rest k

/-- The per-missing-property loop shared by `required` and the
string-list form of `dependencies`: report under the property's index
token. -/
def requiredLoop (maxE : Nat) (members : List (String × Value)) :
    List String → Nat → VMState → ExecRes
  | [], _, st => (st, none)
  | prop :: rest, i, st =>
    if (lookupMember members prop).isSome then
      requiredLoop maxE members rest (i + 1) st
    else
      andThen (checkReport maxE true (toString i) st) fun st =>
        requiredLoop maxE members rest (i + 1) st

/-- The `patternProperties` scan for one instance member: every
matching pattern's subschema is applied and clears `isAdditional`. -/
def patPropsLoop (reg : Registry) (exV : SchemaNode → Value → VMState → ExecRes)
    (key : String) (value : Value) :
    List (Regex × Nat) → Bool → VMState → (Bool × VMState) × Option GoErr
  | [], isAdd, st => ((isAdd, st), none)
  | (rx, idx) :: rest, isAdd, st =>
    if regexMatch rx key then
      match reg.getIdx idx with
      | none => ((false, st), some .panicIndex)
      | some sub =>
        let st := pushInstanceToken (pushSchemaToken (pushSchemaToken st "patternProperties") rx.source) key
        match exV sub value st with
        | (st, none) =>
          patPropsLoop reg exV key value rest false
            (popSchemaToken (popSchemaToken (popInstanceToken st)))
        | (st, some e) => ((false, st), some e)
    else patPropsLoop reg exV key value rest isAdd st

/-- The `properties` part of one member-loop iteration: apply the
member's named subschema if any, reporting whether the member is still
`additional`. -/
def propsStep (reg : Registry) (exV : SchemaNode → Value → VMState → ExecRes)
    (props : Option (List (String × Nat))) (key : String) (value : Value)
    (st : VMState) : (Bool × VMState) × Option GoErr :=
  match props with
  | some props =>
    match lookupPropIdx props key with
    | some idx =>
      match reg.getIdx idx with
      | none => ((false, st), some GoErr.panicIndex)
      | some sub =>
        let st := pushInstanceToken (pushSchemaToken (pushSchemaToken st "properties") key) key
        match exV sub value st with
        | (st, none) =>
          ((false, popSchemaToken (popSchemaToken (popInstanceToken st))), none)
        | (st, some e) => ((false, st), some e)
    | none => ((true, st), none)
  | none => ((true, st), none)

/-- The `patternProperties` part of one member-loop iteration. -/
def patStep (reg : Registry) (exV : SchemaNode → Value → VMState → ExecRes)
    (patProps : Option (List (Regex × Nat))) (key : String) (value : Value)
    (isAdd : Bool) (st : VMState) : (Bool × VMState) × Option GoErr :=
  match patProps with
  | some pats => patPropsLoop reg exV key value pats isAdd st
  | none => ((isAdd, st), none)

/-- The `additionalProperties` part of one member-loop iteration. -/
def addStep (reg : Registry) (exV : SchemaNode → Value → VMState → ExecRes)
    (addProps : Option Nat) (key : String) (value : Value)
    (isAdd : Bool) (st : VMState) : ExecRes :=
  match addProps with
  | some ai =>
    if isAdd then
      match reg.getIdx ai with
      | none => (st, some GoErr.panicIndex)
      | some sub =>
        let st := pushInstanceToken (pushSchemaToken st "additionalProperties") key
        match exV sub value st with
        | (st, none) => (popSchemaToken (popInstanceToken st), none)
        | r => r
    else (st, none)
  | none => (st, none)

/-- The member loop of the object arm: `properties`,
`patternProperties` and `additionalProperties` per instance member, in
the member enumeration order of the instance. -/
def membersLoop (reg : Registry) (exV : SchemaNode → Value → VMState → ExecRes)
    (props : Option (List (String × Nat))) (patProps : Option (List (Regex × Nat)))
    (addProps : Option Nat) : List (String × Value) → VMState → ExecRes
  | [], st => (st, none)
  | (key, value) :: rest, st =>
    match propsStep reg exV props key value st with
    | ((isAdd, st), none) =>
      match patStep reg exV patProps key value isAdd st with
      | ((isAdd, st), none) =>
        andThen (addStep reg exV addProps key value isAdd st) fun st =>
          membersLoop reg exV props patProps addProps rest st
      | ((_, st), some e) => (st, some e)
    | ((_, st), some e) => (st, some e)

/-- The entry loop of the `dependencies` block. -/
def depsLoop (reg : Registry) (maxE : Nat)
    (exV : SchemaNode → Value → VMState → ExecRes)
    (members : List (String × Value)) :
    List (String × SchemaDep) → VMState → ExecRes
  | [], st => (st, none)
  | (key, dep) :: rest, st =>
    let st := pushSchemaToken st key
    andThen (if (lookupMember members key).isSome then
               match dep with
               | .schema idx =>
                 match reg.getIdx idx with
                 | none => (st, some GoErr.panicIndex)
                 | some sub => exV sub (.obj members) st
               | .props names => requiredLoop maxE members names 0 st
             else (st, none)) fun st =>
      depsLoop reg maxE exV members rest (popSchemaToken st)

/-- The key loop of the `propertyNames` block: each key is validated as
a string instance. -/
def propNamesLoop (exV : SchemaNode → Value → VMState → ExecRes)
    (sub : SchemaNode) : List (String × Value) → VMState → ExecRes
  | [], st => (st, none)
  | (key, _) :: rest, st =>
    let st := pushInstanceToken st key
    andThen (exV sub (.str key) st) fun st =>
      propNamesLoop exV sub rest (popInstanceToken st)

/-- The `case map[string]interface{}` arm of `execSchema`'s instance
switch. -/
def execObject (reg : Registry) (maxE : Nat)
    (exV : SchemaNode → Value → VMState → ExecRes)
    (s : SchemaNode) (val : List (String × Value)) (st : VMState) : ExecRes :=
  andThen (checkOpt maxE s.typ (fun ty => !ty.containsT .object) "type" st) fun st =>
  andThen (checkOpt maxE s.maxProperties (fun n => (val.length : Int) > n) "maxProperties" st) fun st =>
  andThen (checkOpt maxE s.minProperties (fun n => (val.length : Int) < n) "minProperties" st) fun st =>
  andThen (match s.required with
           | none => (st, none)
           | some props =>
             let st := pushSchemaToken st "required"
             andThen (requiredLoop maxE val props 0 st) fun st => (popSchemaToken st, none)) fun st =>
  andThen (membersLoop reg exV s.properties s.patternProperties s.additionalProperties val st) fun st =>
  andThen (match s.dependencies with
           | none => (st, none)
           | some deps =>
             let st := pushSchemaToken st "dependencies"
             andThen (depsLoop reg maxE exV val deps st) fun st => (popSchemaToken st, none)) fun st =>
  match s.propertyNames with
  | none => (st, none)
  | some pn =>
    let st := pushSchemaToken st "propertyNames"
    match reg.getIdx pn with
    | none => (st, some .panicIndex)
    | some sub =>
      andThen (propNamesLoop exV sub val st) fun st => (popSchemaToken st, none)

/-- The portion of `vm.execSchema` that follows the `$ref` block: the
sibling keywords `not`, `if`/`then`/`else`, `const`, `enum`, `allOf`,
`anyOf`, `oneOf`, and the instance-type switch.  It never consults the
node's `ref` slot. -/
def execAfterRef (reg : Registry) (maxE : Nat)
    (exV : SchemaNode → Value → VMState → ExecRes)
    (psV : SchemaNode → Value → VMState → (Bool × VMState) × Option GoErr)
    (s : SchemaNode) (inst : Value) (st : VMState) : ExecRes :=
  andThen (notBlock reg maxE psV s inst st) fun st =>
  andThen (ifBlock reg exV psV s inst st) fun st =>
  andThen (constBlock maxE s inst st) fun st =>
  andThen (enumBlock maxE s inst st) fun st =>
  andThen (allOfBlock reg exV s inst st) fun st =>
  andThen (anyOfBlock reg maxE psV s inst st) fun st =>
  andThen (oneOfBlock reg maxE psV s inst st) fun st =>
  match inst with
  | .null => checkOpt maxE s.typ (fun ty => !ty.containsT .null) "type" st
  | .bool _ => checkOpt maxE s.typ (fun ty => !ty.containsT .boolean) "type" st
  | .num q => execNumber maxE s q st
  | .str v => execString maxE s v st
  | .arr val => execArray reg maxE exV psV s val st
  | .obj val => execObject reg maxE exV s val st

/-- `vm.execSchema`: trivial boolean schemas first, then `$ref` (which
does **not** short-circuit the remaining keywords), then the sibling
keywords via `execAfterRef`.  One unit of fuel is consumed per nested
`execSchema` call. -/
def execSchema (reg : Registry) (maxD maxE : Nat) :
    Nat → SchemaNode → Value → VMState → ExecRes
  | 0, _, _, st => (st, some .fuelOut)
  | fuel + 1, s, inst, st =>
    let exV : SchemaNode → Value → VMState → ExecRes :=
      fun sub v stx => execSchema reg maxD maxE fuel sub v stx
    let psV : SchemaNode → Value → VMState → (Bool × VMState) × Option GoErr :=
      fun sub v stx => pseudoExecWith exV sub v stx
    match s.boolSchema with
    | some b => if b then (st, none) else reportError maxE st
    | none =>
      andThen (refBlock reg maxD exV s inst st) fun st1 =>
        execAfterRef reg maxE exV psV s inst st1

/-- `vm.pseudoExec` applied to the fueled evaluator. -/
def pseudoExec (reg : Registry) (maxD maxE : Nat) (fuel : Nat)
    (s : SchemaNode) (inst : Value) (st : VMState) : (Bool × VMState) × Option GoErr :=
  pseudoExecWith (fun s2 v2 st2 => execSchema reg maxD maxE fuel s2 v2 st2) s inst st

/-- The fresh state built by `newVM`. -/
def newVMState : VMState := ⟨[], [], ⟨false, []⟩⟩

/-- `vm.Exec`: registry lookup (`ErrNoSuchSchema` when absent), parse
the URI fragment as a pointer, push the initial frame, evaluate, and
convert the internal `errMaxErrors` sentinel into success. -/
def vmExec (reg : Registry) (maxD maxE : Nat) (fuel : Nat)
    (uri : URL) (inst : Value) (st : VMState) : ExecRes :=
  match reg.get uri with
  | none => (st, some .panicIndex)
  | some (schema, ok) =>
    if !ok then (st, some .noSuchSchema)
    else
      match ptrParse uri.fragment with
      | none => (st, some .ptrParseErr)
      | some fragTokens =>
        let st := pushNewSchema st uri fragTokens
        match execSchema reg maxD maxE fuel schema inst st with
        | (st, some .maxErrorsSentinel) => (st, none)
        | r => r

/-- `ValidationResult`. -/
structure ValidationResult where
  errors : List VErr
  overflowed : Bool
deriving DecidableEq, Repr

/-- `ValidationResult.IsValid`. -/
def ValidationResult.isValid (r : ValidationResult) : Bool :=
  r.errors.length == 0

/-- `Validator.ValidateURI`: on success package the accumulated errors
(`vm.ValidationResult()` never sets `Overflowed`); on error return the
zero `ValidationResult` together with the error. -/
def ValidateURI (v : GoValidator) (fuel : Nat) (uri : URL) (inst : Value) :
    ValidationResult × Option GoErr :=
  match vmExec v.registry v.maxStackDepth v.maxErrors fuel uri inst newVMState with
  | (st, none) => (⟨st.errs.errors, false⟩, none)
  | (_, some e) => (⟨[], false⟩, some e)

/-- `Validator.Validate`: validation against the empty URI. -/
def Validate (v : GoValidator) (fuel : Nat) (inst : Value) :
    ValidationResult × Option GoErr :=
  ValidateURI v fuel emptyURL inst

/-- A schema node with its `$ref` slot cleared: the "sibling keywords
only" reading of a node. -/
def clearRef (s : SchemaNode) : SchemaNode := { s with ref := none }

mutual

/-- Instances all of whose objects have at most one member (on these the
Go map enumeration order is unique). -/
def smallObj : Value → Bool
  | .null => true
  | .bool _ => true
  | .num _ => true
  | .str _ => true
  | .arr l => smallObjList l
  | .obj m => decide (m.length ≤ 1) && smallObjMembers m

/-- `smallObj` over array elements. -/
def smallObjList : List Value → Bool
  | [] => true
  | v :: rest => smallObj v && smallObjList rest

/-- `smallObj` over object member values. -/
def smallObjMembers : List (String × Value) → Bool
  | [] => true
  | (_, v) :: rest => smallObj v && smallObjMembers rest

end

/-- Every arena node with a `$ref` carries the registry's index for its
target URI. -/
def refsResolved (r : Registry) : Prop :=
  ∀ s ∈ r.arena, ∀ rf : SchemaRef, s.ref = some rf →
    lookupURL r.schemas rf.uri = some rf.schema

/-- Spec-side description of the undefined-URI list produced by one seal
pass: from the missing list (in discovery order, one entry per referring
site), keep — as its fragment-less base — every URI whose base has no
raw document. -/
def undefinedBases (raw : List (URL × Value)) (missing : List URL) : List URL :=
  missing.filterMap fun u =>
    if (lookupRaw raw (clearFragment u)).isSome then none
    else some (clearFragment u)

/-- Spec-side description of `PopulateRefs`' missing list: the target
URIs of unresolved `$ref` nodes, in arena (discovery) order, one entry
per referring node. -/
def missingSpec (r : Registry) : List URL :=
  r.arena.filterMap fun s =>
    match s.ref with
    | some rf => if (lookupURL r.schemas rf.uri).isSome then none else some rf.uri
    | none => none

/-- The raw document `{"$ref": "#"}`. -/
def selfRefDoc : Value := .obj [("$ref", .str "#")]

/-- The compiled node of `{"$ref": "#"}`. -/
def selfRefNode : SchemaNode := { ref := some ⟨emptyURL, emptyURL, [], 0⟩ }

/-- The sealed registry of `{"$ref": "#"}`. -/
def selfRefReg : Registry := { schemas := [(emptyURL, 0)], arena := [selfRefNode] }

/-- The raw document `{"not": {"type": "null"}}`. -/
def notNullDoc : Value := .obj [("not", .obj [("type", .str "null")])]

/-- The raw document with two independently failing properties. -/
def propsDoc : Value :=
  .obj [("properties", .obj [("a", .obj [("type", .str "null")]),
                             ("b", .obj [("type", .str "null")])])]

/-- The instance `{"a": true, "b": true}` enumerated a-first. -/
def instAB : Value := .obj [("a", .bool true), ("b", .bool true)]

/-- The same Go map enumerated b-first. -/
def instBA : Value := .obj [("b", .bool true), ("a", .bool true)]

/-- The validation error at member `a`. -/
def errPropA : VErr := ⟨["a"], ["properties", "a", "type"], emptyURL⟩

/-- The validation error at member `b`. -/
def errPropB : VErr := ⟨["b"], ["properties", "b", "type"], emptyURL⟩

/-- Every arena node's `PatternProperties` and `Dependencies` maps have
at most one entry, so their per-call Go enumeration order is unique and
the compiled association lists are a faithful rendering. -/
def uniqueSchemaEnums (r : Registry) : Bool :=
  r.arena.all fun s =>
    (match s.patternProperties with
     | some pats => pats.length ≤ 1
     | none => true) &&
    (match s.dependencies with
     | some deps => deps.length ≤ 1
     | none => true)

/-- The raw document with two pattern properties, enumerated a-first:
one enumeration order of the Go map under `"patternProperties"`. -/
def ppDocAB : Value :=
  .obj [("patternProperties", .obj [("a", .obj [("type", .str "null")]),
                                    ("b", .obj [("type", .str "null")])])]

/-- The same Go map enumerated b-first. -/
def ppDocBA : Value :=
  .obj [("patternProperties", .obj [("b", .obj [("type", .str "null")]),
                                    ("a", .obj [("type", .str "null")])])]

/-- The single-member instance `{"ab": true}`, whose key both patterns
match. -/
def ppInst : Value := .obj [("ab", .bool true)]

/-- The validation error from pattern `a` on member `ab`. -/
def errPatA : VErr := ⟨["ab"], ["patternProperties", "a", "type"], emptyURL⟩

/-- The validation error from pattern `b` on member `ab`. -/
def errPatB : VErr := ⟨["ab"], ["patternProperties", "b", "type"], emptyURL⟩

/-- The rational minus one half (kernel-evaluable spelling). -/
def negHalf : ℚ := mkRat (-1) 2

/-- The rational 3.14 (kernel-evaluable spelling). -/
def piIsh : ℚ := mkRat 314 100

/-- The rational minus two (kernel-evaluable spelling). -/
def negTwo : ℚ := mkRat (-2) 1

/-- The rational three (kernel-evaluable spelling). -/
def threeQ : ℚ := mkRat 3 1

/-- The error of a seal outcome, if any. -/
def sealErr (r : Except GoErr Registry) : Option GoErr :=
  match r with
  | .ok _ => none
  | .error e => some e

/-- An error-count bound on a call result: at most `N` accumulated
errors, strictly fewer on the error-free path. -/
abbrev ErrB (N : Nat) (r : ExecRes) : Prop :=
  r.1.errs.errors.length ≤ N ∧ (r.2 = none → r.1.errs.errors.length < N)

/-- `ErrB` for the pseudo-exec result shape. -/
abbrev ErrBB (N : Nat) (r : (Bool × VMState) × Option GoErr) : Prop :=
  r.1.2.errs.errors.length ≤ N ∧ (r.2 = none → r.1.2.errs.errors.length < N)

/-- A state transformer respects the error bound `N` from every state
strictly below the bound. -/
abbrev ErrF (N : Nat) (f : VMState → ExecRes) : Prop :=
  ∀ st : VMState, st.errs.errors.length < N → ErrB N (f st)

/-- A fallible result that is not a `MissingURIs` error (no parser or
per-pass step ever constructs one; only the seal loop does). -/
abbrev notMissingE {α : Type} (r : Except GoErr α) : Prop :=
  ∀ l : List URL, r ≠ .error (.missingURIs l)

/-! ## Theorems -/

/-- C1: at the failing input, the error emitted **inside** the
pseudo-exec of `not` becomes the visible result once `max_errors` is
reached there: with `max_errors = 1` the valid instance `true` is
reported invalid with the pseudo error (schema path `/type`), while the
same validator with `max_errors = 0` correctly returns no errors.  This
contradicts `pseudoExec`'s documented guarantee that the vm exits the
pseudo-exec in the state it entered with. -/
theorem pseudoExecLeakAtMaxErrors :
    (NewValidatorWithConfig 10 10 [notNullDoc] 128 1).map
        (fun v => Validate v 20 (.bool true))
      = .ok (⟨[⟨[], ["type"], emptyURL⟩], false⟩, none)
    ∧ (NewValidatorWithConfig 10 10 [notNullDoc] 128 0).map
        (fun v => Validate v 20 (.bool true))
      = .ok (⟨[], false⟩, none) := by
  constructor <;> rfl

/-- C2 counterexample: the two member-enumeration orders of the same Go
map (`deepEqual` holds) produce the two error lists in different
orders, so the lists are not identical. -/
theorem validateOrderCounterexample :
    deepEqual instAB instBA = true
    ∧ (NewValidatorWithConfig 10 10 [propsDoc] 128 0).map
        (fun v => (Validate v 20 instAB).1.errors)
      = .ok [errPropA, errPropB]
    ∧ (NewValidatorWithConfig 10 10 [propsDoc] 128 0).map
        (fun v => (Validate v 20 instBA).1.errors)
      = .ok [errPropB, errPropA]
    ∧ [errPropA, errPropB] ≠ [errPropB, errPropA] := by
  refine ⟨by rfl, by rfl, by rfl, by decide⟩

/-- The sealed form of `{"$ref": "#"}`. -/
theorem selfRefSealed : sealValidator 10 10 [selfRefDoc] = .ok selfRefReg := by rfl

/-- An error result short-circuits `andThen` unchanged. -/
theorem andThen_of_err {r : ExecRes} {e : GoErr} (h : r.2 = some e)
    (k : VMState → ExecRes) : andThen r k = r := by
  obtain ⟨st, o⟩ := r
  cases o with
  | none => simp at h
  | some e' => rfl

/-- With `max_stack_depth = 0`, evaluating `{"$ref": "#"}` never hits
the overflow check (the frame count starts at one and only grows), so
the embedded evaluator exhausts any amount of fuel: the Go evaluator
recurses forever instead of returning `ErrStackOverflow`. -/
theorem selfRefZeroDepthDiverges :
    ∀ (fuel maxE : Nat) (inst : Value) (st : VMState), st.frames ≠ [] →
      (execSchema selfRefReg 0 maxE fuel selfRefNode inst st).2 = some .fuelOut := by
  intro fuel
  induction fuel with
  | zero => intro maxE inst st hne; rfl
  | succ n ih =>
    intro maxE inst st hne
    have hlen : ¬ st.frames.length = 0 := by
      simpa [List.length_eq_zero] using hne
    have hinner := ih maxE inst (pushNewSchema st emptyURL []) (by simp [pushNewSchema])
    simp only [execSchema]
    rw [show selfRefNode.boolSchema = none from rfl]
    simp only [refBlock]
    rw [show selfRefNode.ref = some ⟨emptyURL, emptyURL, [], 0⟩ from rfl]
    simp only [if_neg hlen]
    rw [show Registry.getIdx selfRefReg 0 = some selfRefNode from rfl]
    simp only [andThen_of_err hinner]
    exact hinner

/-- With `max_stack_depth = N ≥ 1`, evaluating `{"$ref": "#"}` reaches
frame depth `N` and returns `ErrStackOverflow`, for any instance and
any state of sufficient fuel. -/
theorem selfRefOverflow :
    ∀ (fuel N maxE : Nat) (inst : Value) (st : VMState),
      1 ≤ st.frames.length → st.frames.length ≤ N → N - st.frames.length < fuel →
      (execSchema selfRefReg N maxE fuel selfRefNode inst st).2 = some .stackOverflow := by
  intro fuel
  induction fuel with
  | zero => intro N maxE inst st h1 h2 h3; omega
  | succ n ih =>
    intro N maxE inst st h1 h2 h3
    simp only [execSchema]
    rw [show selfRefNode.boolSchema = none from rfl]
    simp only [refBlock]
    rw [show selfRefNode.ref = some ⟨emptyURL, emptyURL, [], 0⟩ from rfl]
    by_cases hN : st.frames.length = N
    · simp only [if_pos hN]
      rfl
    · simp only [if_neg hN]
      rw [show Registry.getIdx selfRefReg 0 = some selfRefNode from rfl]
      have hpush : (pushNewSchema st emptyURL []).frames.length = st.frames.length + 1 := by
        simp [pushNewSchema]
      have hinner := ih N maxE inst (pushNewSchema st emptyURL [])
        (by omega) (by omega) (by omega)
      simp only [andThen_of_err hinner]
      exact hinner

/-- Plumbing from an `execSchema` error to the `ValidateURI` result for
the sealed `{"$ref": "#"}` validator: any hard error other than the
max-errors sentinel surfaces with the zero `ValidationResult`. -/
theorem selfRefVMExec (N E fuel : Nat) (inst : Value) (e : GoErr)
    (he : e ≠ .maxErrorsSentinel)
    (h : (execSchema selfRefReg N E fuel selfRefNode inst
        (pushNewSchema newVMState emptyURL [])).2 = some e) :
    ValidateURI ⟨selfRefReg, N, E⟩ fuel emptyURL inst = (⟨[], false⟩, some e) := by
  have hv : vmExec selfRefReg N E fuel emptyURL inst newVMState =
      (match execSchema selfRefReg N E fuel selfRefNode inst
          (pushNewSchema newVMState emptyURL []) with
       | (st, some .maxErrorsSentinel) => (st, none)
       | r => r) := rfl
  rcases hres : execSchema selfRefReg N E fuel selfRefNode inst
      (pushNewSchema newVMState emptyURL []) with ⟨st', e'⟩
  rw [hres] at h hv
  simp only at h
  subst h
  rw [show ValidateURI ⟨selfRefReg, N, E⟩ fuel emptyURL inst =
      (match vmExec selfRefReg N E fuel emptyURL inst newVMState with
       | (st, none) => (⟨st.errs.errors, false⟩, none)
       | (_, some e) => (⟨[], false⟩, some e)) from rfl]
  rw [hv]
  cases e with
  | maxErrorsSentinel => exact absurd rfl he
  | stackOverflow => rfl
  | fuelOut => rfl
  | invalidSchema => rfl
  | idNotURI => rfl
  | refPtrErr => rfl
  | missingURIs uris => rfl
  | noSuchSchema => rfl
  | ptrParseErr => rfl
  | ptrEvalErr => rfl
  | panicIndex => rfl

/-- C3 counterexample: the validator for `{"$ref": "#"}` configured
with `max_stack_depth = 0` (a configuration the API accepts — it is the
Go zero value of `MaxStackDepth`) does not return `StackOverflow`: the
evaluation exhausts the embedding's fuel (the Go program recurses
forever), here shown for fuel 1000. -/
theorem selfRefZeroDepthNoOverflow :
    (NewValidatorWithConfig 10 10 [selfRefDoc] 0 0).map (fun v => Validate v 1000 .null)
      = .ok (⟨[], false⟩, some .fuelOut)
    ∧ (some GoErr.fuelOut ≠ some GoErr.stackOverflow) := by
  constructor
  · have hv : NewValidatorWithConfig 10 10 [selfRefDoc] 0 0 = .ok ⟨selfRefReg, 0, 0⟩ := by rfl
    rw [hv]
    simp only [Except.map]
    rw [show Validate ⟨selfRefReg, 0, 0⟩ 1000 .null
        = ValidateURI ⟨selfRefReg, 0, 0⟩ 1000 emptyURL .null from rfl]
    rw [selfRefVMExec 0 0 1000 .null .fuelOut (by simp)
      (selfRefZeroDepthDiverges 1000 0 .null (pushNewSchema newVMState emptyURL [])
        (by simp [pushNewSchema]))]
  · simp

/-- C3 amended: sealing `{"$ref": "#"}` yields the self-referential
registry; for every `max_stack_depth = N ≥ 1`, every `max_errors`
configuration and every instance, validation returns `StackOverflow`
with the zero result (given fuel at least `N`); and in general any hard
validation error discards the partially accumulated error list. -/
theorem selfRefStackOverflowAtPositiveDepth :
    sealValidator 10 10 [selfRefDoc] = .ok selfRefReg
    ∧ (∀ (N E fuel : Nat) (inst : Value), 1 ≤ N → N ≤ fuel →
        ValidateURI ⟨selfRefReg, N, E⟩ fuel emptyURL inst = (⟨[], false⟩, some .stackOverflow))
    ∧ (∀ (v : GoValidator) (fuel : Nat) (uri : URL) (inst : Value) (e : GoErr),
        (ValidateURI v fuel uri inst).2 = some e →
        (ValidateURI v fuel uri inst).1 = ⟨[], false⟩) := by
  refine ⟨by rfl, ?_, ?_⟩
  · intro N E fuel inst h1 h2
    have hpush : (pushNewSchema newVMState emptyURL []).frames.length = 1 := by
      simp [pushNewSchema, newVMState]
    exact selfRefVMExec N E fuel inst .stackOverflow (by simp)
      (selfRefOverflow fuel N E inst (pushNewSchema newVMState emptyURL [])
        (by omega) (by omega) (by omega))
  · intro v fuel uri inst e h
    have hV : ValidateURI v fuel uri inst =
        (match vmExec v.registry v.maxStackDepth v.maxErrors fuel uri inst newVMState with
         | (st, none) => (⟨st.errs.errors, false⟩, none)
         | (_, some e) => (⟨[], false⟩, some e)) := rfl
    rcases hres : vmExec v.registry v.maxStackDepth v.maxErrors fuel uri inst newVMState
      with ⟨st', e'⟩
    rw [hres] at hV
    rw [hV] at h ⊢
    cases e' with
    | none => simp at h
    | some e'' => rfl

/-- The parser's tolerance is strictly positive. -/
theorem epsilonPos : 0 < Epsilon := by
  rw [Epsilon, Rat.mkRat_eq_div]
  norm_num

/-- Arithmetic characterization of the natural-keyword acceptance test
(`rem ≤ ε` with `rem` signed, and truncated integer part non-negative):
it passes exactly for non-negative values whose fractional part is at
most ε, and for every value strictly between minus one and zero. -/
theorem natAccept_iff (q : ℚ) :
    (¬ Epsilon < q - (ratTrunc q : ℚ) ∧ ¬ ratTrunc q < 0) ↔
      ((0 ≤ q ∧ q - ⌊q⌋ ≤ Epsilon) ∨ (-1 < q ∧ q < 0)) := by
  rcases le_or_lt 0 q with h | h
  · rw [ratTrunc, if_pos h]
    have hf : (0 : ℤ) ≤ ⌊q⌋ := Int.floor_nonneg.mpr h
    constructor
    · rintro ⟨h1, _⟩
      exact Or.inl ⟨h, not_lt.mp h1⟩
    · rintro (⟨_, h1⟩ | ⟨_, h2⟩)
      · exact ⟨not_lt.mpr h1, not_lt.mpr hf⟩
      · exact absurd h (not_le.mpr h2)
  · rw [ratTrunc, if_neg (not_le.mpr h)]
    have hle : q - ((⌈q⌉ : ℤ) : ℚ) ≤ Epsilon := by
      have := Int.le_ceil q
      have hε := epsilonPos
      linarith
    constructor
    · rintro ⟨_, h2⟩
      refine Or.inr ⟨?_, h⟩
      have hc : (-1 : ℤ) < ⌈q⌉ := by omega
      have := Int.lt_ceil.mp hc
      exact_mod_cast this
    · rintro (⟨h1, _⟩ | ⟨h1, _⟩)
      · exact absurd h (not_lt.mpr h1)
      · refine ⟨not_lt.mpr hle, not_lt.mpr ?_⟩
        have hc : ((-1 : ℤ) : ℚ) < q := by exact_mod_cast h1
        have := Int.lt_ceil.mpr hc
        omega

/-- The natural-keyword block, as a single conditional: accept (storing
the truncated integer part) iff the Modf-based test passes. -/
theorem parseNatKw_cases (q : ℚ) (kw : String) :
    parseNatKw [(kw, .num q)] kw =
      (if ¬ Epsilon < q - (ratTrunc q : ℚ) ∧ ¬ ratTrunc q < 0
       then .ok (some (ratTrunc q)) else .error .invalidSchema) := by
  by_cases h1 : Epsilon < q - (ratTrunc q : ℚ) <;>
    by_cases h2 : ratTrunc q < 0 <;>
      simp [parseNatKw, lookupMember, h1, h2]

section
attribute [local semireducible] Rat.sub Rat.add Rat.mul

/-- C7 counterexample: `-0.5` is negative — so by the claim it must be
rejected — yet sealing `{"maxLength": -0.5}` succeeds (Go's
`math.Modf(-0.5)` yields integer part `-0.0`, which is not `< 0`, and a
negative remainder, which is not `> ε`). -/
theorem negativeMaxLengthAccepted :
    negHalf < 0
    ∧ (sealValidator 1 1 [.obj [("maxLength", .num negHalf)]]).isOk = true := by
  exact ⟨by decide, by decide⟩

/-- C7 amended: a number given for a natural-valued keyword is accepted
(with the truncated integer part stored) iff it is non-negative with
fractional part at most ε, **or** lies strictly between minus one and
zero; every other number is rejected with `ErrInvalidSchema`.  The
end-to-end seal conjuncts exercise representative accepted (3, −0.5)
and rejected (3.14, −2) values across the keywords. -/
theorem naturalKeywordAcceptance :
    ∀ (q : ℚ) (kw : String),
      parseNatKw [(kw, .num q)] kw =
        (if (0 ≤ q ∧ q - ⌊q⌋ ≤ Epsilon) ∨ (-1 < q ∧ q < 0)
         then .ok (some (ratTrunc q)) else .error .invalidSchema)
      ∧ sealErr (sealValidator 1 1 [.obj [("maxLength", .num piIsh)]]) = some .invalidSchema
      ∧ sealErr (sealValidator 1 1 [.obj [("minLength", .num negTwo)]]) = some .invalidSchema
      ∧ sealErr (sealValidator 1 1 [.obj [("maxItems", .num piIsh)]]) = some .invalidSchema
      ∧ sealErr (sealValidator 1 1 [.obj [("minProperties", .num negTwo)]]) = some .invalidSchema
      ∧ (sealValidator 1 1 [.obj [("maxLength", .num threeQ)]]).isOk = true
      ∧ (sealValidator 1 1 [.obj [("minItems", .num negHalf)]]).isOk = true := by
  intro q kw
  refine ⟨?_, by decide, by decide, by decide, by decide, by decide, by decide⟩
  rw [parseNatKw_cases]
  exact if_congr (natAccept_iff q) rfl rfl

end

/-- C8 counterexample: a validation call that aborts on
`max_stack_depth` still returns `overflowed = false` (the
`ValidationResult` is the zero value; the field is never set anywhere),
refuting "overflowed is true iff evaluation aborted on stack depth". -/
theorem overflowedFalseOnStackAbort :
    (NewValidatorWithConfig 10 10 [selfRefDoc] 5 0).map (fun v => Validate v 20 .null)
      = .ok (⟨[], false⟩, some .stackOverflow)
    ∧ ((⟨[], false⟩ : ValidationResult)).overflowed = false := by
  constructor
  · have hv : NewValidatorWithConfig 10 10 [selfRefDoc] 5 0 = .ok ⟨selfRefReg, 5, 0⟩ := by rfl
    rw [hv]
    simp only [Except.map]
    rw [show Validate ⟨selfRefReg, 5, 0⟩ 20 .null
        = ValidateURI ⟨selfRefReg, 5, 0⟩ 20 emptyURL .null from rfl]
    rw [selfRefVMExec 5 0 20 .null .stackOverflow (by simp)
      (selfRefOverflow 20 5 0 .null (pushNewSchema newVMState emptyURL [])
        (by simp [pushNewSchema, newVMState]) (by simp [pushNewSchema, newVMState])
        (by simp [pushNewSchema, newVMState]))]
  · rfl

/-- C8 amended: `IsValid` is true exactly when the error list is empty,
and the `Overflowed` field of every result a validate call returns is
`false` — the code never sets it; stack aborts are signalled by the
returned `ErrStackOverflow` (with the zero result) instead. -/
theorem isValidIffEmptyAndOverflowedNeverSet :
    (∀ r : ValidationResult, r.isValid = true ↔ r.errors = [])
    ∧ (∀ (v : GoValidator) (fuel : Nat) (uri : URL) (inst : Value),
        (ValidateURI v fuel uri inst).1.overflowed = false) := by
  constructor
  · intro r
    simp [ValidationResult.isValid, List.length_eq_zero]
  · intro v fuel uri inst
    have hV : ValidateURI v fuel uri inst =
        (match vmExec v.registry v.maxStackDepth v.maxErrors fuel uri inst newVMState with
         | (st, none) => (⟨st.errs.errors, false⟩, none)
         | (_, some e) => (⟨[], false⟩, some e)) := rfl
    rcases hres : vmExec v.registry v.maxStackDepth v.maxErrors fuel uri inst newVMState
      with ⟨st', e'⟩
    rw [hres] at hV
    rw [hV]
    cases e' with
    | none => rfl
    | some e'' => rfl

/-- C9: `registry.Insert` deduplicates by URI — an already-registered
URI keeps its index and registry, and the new node is discarded — so
the first `$id`-less schema claims the empty URI: with `[{}, {"type":
"null"}]` the accepting `{}` wins (no errors on `true`), and with the
order reversed the rejecting `{"type": "null"}` wins (one error). -/
theorem insertDedupFirstSchemaWins :
    (∀ (r : Registry) (uri : URL) (s : SchemaNode) (i : Nat),
        lookupURL r.schemas uri = some i → Registry.insert r uri s = (i, r))
    ∧ (NewValidatorWithConfig 10 10 [.obj [], .obj [("type", .str "null")]] 128 0).map
        (fun v => Validate v 20 (.bool true)) = .ok (⟨[], false⟩, none)
    ∧ (NewValidatorWithConfig 10 10 [.obj [("type", .str "null")], .obj []] 128 0).map
        (fun v => (Validate v 20 (.bool true)).1.errors) = .ok [⟨[], ["type"], emptyURL⟩] := by
  refine ⟨?_, by rfl, by rfl⟩
  intro r uri s i h
  simp [Registry.insert, h]

/-- C9 witness: inserting a node at the already-registered empty URI of
the sealed self-reference registry returns index 0 and the unchanged
registry. -/
theorem insertDedupFirstSchemaWinsWitness :
    Registry.insert selfRefReg emptyURL {} = (0, selfRefReg) :=
  insertDedupFirstSchemaWins.1 selfRefReg emptyURL {} 0 (by decide)

/-- C10: on a validator whose arena is non-empty, `ValidateURI` with an
unregistered URI returns `ErrNoSuchSchema` (and performs no
validation); but `registry.Get` always reads arena slot 0 first, so on
the validator sealed from the empty schema list — whose seal succeeds
with an empty registry — the same call panics with an out-of-range
index instead. -/
theorem absentURIPanicsOnEmptyValidator :
    (∀ (v : GoValidator) (fuel : Nat) (uri : URL) (inst : Value),
        v.registry.arena ≠ [] → lookupURL v.registry.schemas uri = none →
        ValidateURI v fuel uri inst = (⟨[], false⟩, some .noSuchSchema))
    ∧ (∀ (pf lf : Nat), 1 ≤ lf → sealValidator pf lf [] = .ok ⟨[], []⟩)
    ∧ (∀ (N E fuel : Nat) (uri : URL) (inst : Value),
        ValidateURI ⟨⟨[], []⟩, N, E⟩ fuel uri inst = (⟨[], false⟩, some .panicIndex)) := by
  refine ⟨?_, ?_, ?_⟩
  · intro v fuel uri inst hne hlook
    cases harena : v.registry.arena with
    | nil => exact absurd harena hne
    | cons s rest =>
      have hget : Registry.get v.registry uri = some (s, false) := by
        simp [Registry.get, hlook, harena]
      have hV : ValidateURI v fuel uri inst =
          (match vmExec v.registry v.maxStackDepth v.maxErrors fuel uri inst newVMState with
           | (st, none) => (⟨st.errs.errors, false⟩, none)
           | (_, some e) => (⟨[], false⟩, some e)) := rfl
      have hvm : vmExec v.registry v.maxStackDepth v.maxErrors fuel uri inst newVMState
          = (newVMState, some .noSuchSchema) := by
        simp [vmExec, hget]
      rw [hV, hvm]
  · intro pf lf hlf
    cases lf with
    | zero => omega
    | succ n => rfl
  · intro N E fuel uri inst
    have hget : Registry.get (⟨[], []⟩ : Registry) uri = none := by
      simp [Registry.get, lookupURL]
    have hV : ValidateURI ⟨⟨[], []⟩, N, E⟩ fuel uri inst =
        (match vmExec (⟨[], []⟩ : Registry) N E fuel uri inst newVMState with
         | (st, none) => (⟨st.errs.errors, false⟩, none)
         | (_, some e) => (⟨[], false⟩, some e)) := rfl
    have hvm : vmExec (⟨[], []⟩ : Registry) N E fuel uri inst newVMState
        = (newVMState, some .panicIndex) := by
      simp [vmExec, hget]
    rw [hV, hvm]

/-- The sibling-keyword evaluation never consults the `ref` slot:
clearing it does not change `execAfterRef`. -/
theorem execAfterRef_clearRef (reg : Registry) (maxE : Nat)
    (exV : SchemaNode → Value → VMState → ExecRes)
    (psV : SchemaNode → Value → VMState → (Bool × VMState) × Option GoErr)
    (s : SchemaNode) (inst : Value) (st : VMState) :
    execAfterRef reg maxE exV psV (clearRef s) inst st
      = execAfterRef reg maxE exV psV s inst st := rfl

/-- C6: on a non-boolean node carrying `$ref`, the evaluator first runs
the `$ref` block and then — from the state the `$ref` block produced —
evaluates the node with its `ref` cleared, i.e. exactly the sibling
keywords against the same instance.  Sibling errors are therefore
produced in addition to (and after) the referenced schema's errors. -/
theorem refDoesNotShortCircuitSiblings :
    ∀ (reg : Registry) (maxD maxE fuel : Nat) (s : SchemaNode) (inst : Value) (st : VMState),
      s.boolSchema = none → s.ref.isSome = true →
      execSchema reg maxD maxE (fuel + 1) s inst st =
        andThen (refBlock reg maxD (fun s2 v2 st2 => execSchema reg maxD maxE fuel s2 v2 st2) s inst st)
          (fun st1 => execSchema reg maxD maxE (fuel + 1) (clearRef s) inst st1) := by
  intro reg maxD maxE fuel s inst st hbool _href
  have hcb : (clearRef s).boolSchema = none := by
    rw [show (clearRef s).boolSchema = s.boolSchema from rfl, hbool]
  have hrefnone : ∀ (exV : SchemaNode → Value → VMState → ExecRes) (st1 : VMState),
      refBlock reg maxD exV (clearRef s) inst st1 = (st1, none) := by
    intro exV st1
    simp [refBlock, show (clearRef s).ref = none from rfl]
  simp only [execSchema, hbool, hcb, hrefnone]
  simp only [andThen, execAfterRef_clearRef]

/-- C6 witness: the decomposition at the concrete self-referential node
with depth bound 5 and fuel 3. -/
theorem refDoesNotShortCircuitSiblingsWitness :
    execSchema selfRefReg 5 0 (2 + 1) selfRefNode .null newVMState =
      andThen (refBlock selfRefReg 5 (fun s2 v2 st2 => execSchema selfRefReg 5 0 2 s2 v2 st2)
          selfRefNode .null newVMState)
        (fun st1 => execSchema selfRefReg 5 0 (2 + 1) (clearRef selfRefNode) .null st1) :=
  refDoesNotShortCircuitSiblings selfRefReg 5 0 2 selfRefNode .null newVMState (by rfl) (by rfl)

/-- C3 witness: the amended stack-overflow statement at depth 5 with
fuel 20 on the null instance. -/
theorem selfRefStackOverflowWitness :
    ValidateURI ⟨selfRefReg, 5, 0⟩ 20 emptyURL .null = (⟨[], false⟩, some .stackOverflow) :=
  selfRefStackOverflowAtPositiveDepth.2.1 5 0 20 .null (by decide) (by decide)

/-- C10 witness: both behaviours at concrete inputs — `ErrNoSuchSchema`
on the non-empty self-reference validator, and the arena panic on the
empty-list validator. -/
theorem absentURIPanicsWitness :
    ValidateURI ⟨selfRefReg, 5, 0⟩ 7 ⟨"urn:x", ""⟩ .null = (⟨[], false⟩, some .noSuchSchema)
    ∧ sealValidator 3 1 [] = .ok ⟨[], []⟩
    ∧ ValidateURI ⟨⟨[], []⟩, 128, 0⟩ 7 ⟨"urn:x", ""⟩ .null = (⟨[], false⟩, some .panicIndex) :=
  ⟨absentURIPanicsOnEmptyValidator.1 ⟨selfRefReg, 5, 0⟩ 7 ⟨"urn:x", ""⟩ .null
      (by simp [selfRefReg]) (by decide),
   absentURIPanicsOnEmptyValidator.2.1 3 1 (by decide),
   absentURIPanicsOnEmptyValidator.2.2 128 0 7 ⟨"urn:x", ""⟩ .null⟩

/-- Deep equality bridge: on instances all of whose objects have at
most one member, `reflect.DeepEqual` forces structural equality of the
representations (there is only one enumeration order to choose). -/
theorem deepEqual_small_eq_aux :
    ∀ (n : Nat) (a b : Value), sizeOf a ≤ n → deepEqual a b = true → smallObj a = true → a = b := by
  intro n
  induction n using Nat.strong_induction_on with
  | _ n ihn =>
    intro a b hsz hde hsm
    cases a with
    | null => cases b <;> simp_all [deepEqual]
    | bool x => cases b <;> simp_all [deepEqual]
    | num x => cases b <;> simp_all [deepEqual]
    | str x => cases b <;> simp_all [deepEqual]
    | arr elems =>
      cases b with
      | arr belems =>
        have hlist : ∀ (as : List Value), (∀ x ∈ as, sizeOf x < n) →
            ∀ bs, deepEqualList as bs = true → smallObjList as = true → as = bs := by
          intro as
          induction as with
          | nil =>
            intro _ bs hd _
            cases bs with
            | nil => rfl
            | cons y ys => simp [deepEqualList] at hd
          | cons x xs ih =>
            intro hbnd bs hd hs
            cases bs with
            | nil => simp [deepEqualList] at hd
            | cons y ys =>
              simp only [deepEqualList, Bool.and_eq_true] at hd
              simp only [smallObjList, Bool.and_eq_true] at hs
              have hx : x = y :=
                ihn (sizeOf x) (hbnd x (by simp)) x y (le_refl _) hd.1 hs.1
              have hxs : xs = ys :=
                ih (fun z hz => hbnd z (by simp [hz])) ys hd.2 hs.2
              rw [hx, hxs]
        have hbnd : ∀ x ∈ elems, sizeOf x < n := by
          intro x hx
          have h1 := List.sizeOf_lt_of_mem hx
          have h2 : sizeOf (Value.arr elems) = 1 + sizeOf elems := by simp
          omega
        simp only [deepEqual] at hde
        simp only [smallObj] at hsm
        rw [hlist elems hbnd belems hde hsm]
      | null => simp_all [deepEqual]
      | bool y => simp_all [deepEqual]
      | num y => simp_all [deepEqual]
      | str y => simp_all [deepEqual]
      | obj ns => simp_all [deepEqual]
    | obj ms =>
      cases b with
      | obj ns =>
        simp only [deepEqual, Bool.and_eq_true] at hde
        simp only [smallObj, Bool.and_eq_true] at hsm
        have hlen : ms.length = ns.length := by
          have := hde.1
          simpa using this
        have hsmall : ms.length ≤ 1 := by
          have := hsm.1
          simpa using this
        cases ms with
        | nil =>
          cases ns with
          | nil => rfl
          | cons y ys => simp at hlen
        | cons kv rest =>
          cases rest with
          | cons kv2 r2 => simp at hsmall
          | nil =>
            cases ns with
            | nil => simp at hlen
            | cons kw tail =>
              cases tail with
              | cons z zs => simp at hlen
              | nil =>
                obtain ⟨k, v⟩ := kv
                obtain ⟨k2, w⟩ := kw
                simp only [deepEqualMembers, Bool.and_eq_true, lookupMember] at hde
                by_cases hk : k2 = k
                · subst hk
                  simp at hde
                  have hv : v = w := by
                    refine ihn (sizeOf v) ?_ v w (le_refl _) hde ?_
                    · have hlt : sizeOf v < sizeOf (Value.obj [(k2, v)]) := by
                        simp only [Value.obj.sizeOf_spec, List.cons.sizeOf_spec,
                          List.nil.sizeOf_spec, Prod.mk.sizeOf_spec]
                        omega
                      omega
                    · simp only [smallObjMembers, Bool.and_eq_true] at hsm
                      exact hsm.2.1
                  rw [hv]
                · simp only [if_neg hk] at hde
                  simp at hde
      | null => simp_all [deepEqual]
      | bool y => simp_all [deepEqual]
      | num y => simp_all [deepEqual]
      | str y => simp_all [deepEqual]
      | arr bs => simp_all [deepEqual]

/-- The size-indexed lemma at its natural instance. -/
theorem deepEqual_small_eq (a b : Value) (hde : deepEqual a b = true)
    (hsm : smallObj a = true) : a = b :=
  deepEqual_small_eq_aux (sizeOf a) a b (le_refl _) hde hsm

/-- C2 amended: `validate` is a function of the validator — *including
the enumeration orders frozen into its compiled `patternProperties` and
`dependencies` maps, which the Go evaluator re-enumerates in randomized
order on every call* — and of the instance tree *including its
member-enumeration orders*.  Determinism across runs therefore holds
exactly on the fragment where every such enumeration is unique: when
every arena node carries at most one `patternProperties` and at most one
`dependencies` entry and every object of the instance has at most one
member, `DeepEqual`-identical instances validate to identical results
(first conjunct).  Outside that fragment order varies run to run: the
remaining conjuncts show the two enumerations of the *schema's*
`patternProperties` map — on a fixed single-member instance — already
produce the two error lists in opposite orders. -/
theorem validateDeterministicOnUniqueEnumerations :
    (∀ (v : GoValidator) (fuel : Nat) (uri : URL) (I1 I2 : Value),
        uniqueSchemaEnums v.registry = true →
        deepEqual I1 I2 = true → smallObj I1 = true →
        ValidateURI v fuel uri I1 = ValidateURI v fuel uri I2)
    ∧ smallObj ppInst = true
    ∧ (NewValidatorWithConfig 10 10 [ppDocAB] 128 0).map
        (fun v => (Validate v 20 ppInst).1.errors)
      = .ok [errPatA, errPatB]
    ∧ (NewValidatorWithConfig 10 10 [ppDocBA] 128 0).map
        (fun v => (Validate v 20 ppInst).1.errors)
      = .ok [errPatB, errPatA]
    ∧ [errPatA, errPatB] ≠ [errPatB, errPatA] := by
  refine ⟨?_, by decide, by rfl, by rfl, by decide⟩
  intro v fuel uri I1 I2 _hue hde hsm
  rw [deepEqual_small_eq I1 I2 hde hsm]

/-- C2 witness: the determinism conjunct at a concrete validator whose
nodes carry no `patternProperties` or `dependencies` entries and a
concrete single-member object instance, all three hypotheses discharged
by evaluation. -/
theorem validateDeterministicWitness :
    ValidateURI ⟨selfRefReg, 5, 0⟩ 9 emptyURL (.obj [("a", .null)])
      = ValidateURI ⟨selfRefReg, 5, 0⟩ 9 emptyURL (.obj [("a", .null)]) :=
  validateDeterministicOnUniqueEnumerations.1 ⟨selfRefReg, 5, 0⟩ 9 emptyURL
    (.obj [("a", .null)]) (.obj [("a", .null)]) (by decide) (by decide) (by decide)


theorem errs_pushNewSchema (st : VMState) (id : URL) (tokens : List String) :
    (pushNewSchema st id tokens).errs = st.errs := rfl

theorem errs_popSchema (st : VMState) : (popSchema st).errs = st.errs := rfl

theorem errs_pushSchemaToken (st : VMState) (t : String) :
    (pushSchemaToken st t).errs = st.errs := by
  cases st with
  | mk it fr er => cases fr <;> rfl

theorem errs_popSchemaToken (st : VMState) :
    (popSchemaToken st).errs = st.errs := by
  cases st with
  | mk it fr er => cases fr <;> rfl

theorem errs_pushInstanceToken (st : VMState) (t : String) :
    (pushInstanceToken st t).errs = st.errs := rfl

theorem errs_popInstanceToken (st : VMState) :
    (popInstanceToken st).errs = st.errs := rfl

theorem errB_ok {N : Nat} {st : VMState} (h : st.errs.errors.length < N) :
    ErrB N (st, none) :=
  ⟨le_of_lt h, fun _ => h⟩

theorem errB_err {N : Nat} {st : VMState} {e : GoErr}
    (h : st.errs.errors.length ≤ N) : ErrB N (st, some e) :=
  ⟨h, fun hc => Option.noConfusion hc⟩

theorem errBB_ok {N : Nat} {b : Bool} {st : VMState}
    (h : st.errs.errors.length < N) : ErrBB N ((b, st), none) :=
  ⟨le_of_lt h, fun _ => h⟩

theorem errBB_err {N : Nat} {b : Bool} {st : VMState} {e : GoErr}
    (h : st.errs.errors.length ≤ N) : ErrBB N ((b, st), some e) :=
  ⟨h, fun hc => Option.noConfusion hc⟩

theorem errB_andThen {N : Nat} {r : ExecRes} {k : VMState → ExecRes}
    (hr : ErrB N r) (hk : ErrF N k) : ErrB N (andThen r k) := by
  rcases r with ⟨st, e⟩
  cases e with
  | none => exact hk st (hr.2 rfl)
  | some e => exact hr

theorem errB_reportError {N : Nat} {st : VMState}
    (h : st.errs.errors.length < N) : ErrB N (reportError N st) := by
  simp only [reportError]
  split
  · refine ⟨?_, fun hc => Option.noConfusion hc⟩
    simp only [List.length_append, List.length_cons, List.length_nil]
    omega
  · next hne =>
      refine ⟨?_, fun _ => ?_⟩ <;>
        · simp only [List.length_append, List.length_cons, List.length_nil] at hne ⊢
          omega

theorem errF_checkReport {N : Nat} (cond : Bool) (token : String) :
    ErrF N (checkReport N cond token) := by
  intro st h
  simp only [checkReport]
  split
  · apply errB_andThen
    · exact errB_reportError (by rw [errs_pushSchemaToken]; exact h)
    · intro st' h'
      exact errB_ok (by rw [errs_popSchemaToken]; exact h')
  · exact errB_ok h

theorem errF_checkOpt {N : Nat} {α : Type} (o : Option α) (cond : α → Bool)
    (token : String) : ErrF N (checkOpt N o cond token) := by
  intro st h
  cases o with
  | none => exact errB_ok h
  | some a => exact errF_checkReport (cond a) token st h

theorem errF_refBlock {N : Nat} (reg : Registry) (maxD : Nat)
    (exV : SchemaNode → Value → VMState → ExecRes)
    (hex : ∀ sub v, ErrF N (exV sub v)) (s : SchemaNode) (inst : Value) :
    ErrF N (refBlock reg maxD exV s inst) := by
  intro st h
  simp only [refBlock]
  split
  · exact errB_ok h
  · split
    · exact errB_err (le_of_lt h)
    · split
      · exact errB_err (le_of_lt h)
      · apply errB_andThen
        · exact hex _ inst _ (by rw [errs_pushNewSchema]; exact h)
        · intro st' h'
          exact errB_ok (by rw [errs_popSchema]; exact h')

theorem errF_notBlock {N : Nat} (reg : Registry)
    (psV : SchemaNode → Value → VMState → (Bool × VMState) × Option GoErr)
    (hps : ∀ sub v st, st.errs.errors.length < N → ErrBB N (psV sub v st))
    (s : SchemaNode) (inst : Value) : ErrF N (notBlock reg N psV s inst) := by
  intro st h
  simp only [notBlock]
  split
  · exact errB_ok h
  · split
    · exact errB_err (le_of_lt h)
    · rename_i sub hgi
      split
      · rename_i b st2 heq
        have hbb := hps sub inst st h
        rw [heq] at hbb
        exact errF_checkReport _ _ st2 (hbb.2 rfl)
      · rename_i st2 e heq
        have hbb := hps sub inst st h
        rw [heq] at hbb
        exact errB_err hbb.1

theorem errF_ifBlock {N : Nat} (reg : Registry)
    (exV : SchemaNode → Value → VMState → ExecRes)
    (psV : SchemaNode → Value → VMState → (Bool × VMState) × Option GoErr)
    (hex : ∀ sub v, ErrF N (exV sub v))
    (hps : ∀ sub v st, st.errs.errors.length < N → ErrBB N (psV sub v st))
    (s : SchemaNode) (inst : Value) : ErrF N (ifBlock reg exV psV s inst) := by
  intro st h
  simp only [ifBlock]
  split
  · exact errB_ok h
  · split
    · exact errB_err (le_of_lt h)
    · rename_i sub hgi
      split
      · rename_i b st2 heq
        have hbb := hps sub inst st h
        rw [heq] at hbb
        have h2 := hbb.2 rfl
        split
        · split
          · exact errB_ok h2
          · split
            · exact errB_err (le_of_lt h2)
            · apply errB_andThen
              · exact hex _ inst _ (by rw [errs_pushSchemaToken]; exact h2)
              · intro st' h'
                exact errB_ok (by rw [errs_popSchemaToken]; exact h')
        · split
          · exact errB_ok h2
          · split
            · exact errB_err (le_of_lt h2)
            · apply errB_andThen
              · exact hex _ inst _ (by rw [errs_pushSchemaToken]; exact h2)
              · intro st' h'
                exact errB_ok (by rw [errs_popSchemaToken]; exact h')
      · rename_i st2 e heq
        have hbb := hps sub inst st h
        rw [heq] at hbb
        exact errB_err hbb.1

theorem errF_constBlock {N : Nat} (s : SchemaNode) (inst : Value) :
    ErrF N (constBlock N s inst) := by
  intro st h
  simp only [constBlock]
  split
  · exact errB_ok h
  · exact errF_checkReport _ _ st h

theorem errF_enumBlock {N : Nat} (s : SchemaNode) (inst : Value) :
    ErrF N (enumBlock N s inst) := by
  intro st h
  simp only [enumBlock]
  split
  · exact errB_ok h
  · exact errF_checkReport _ _ st h

theorem errF_allOfLoop {N : Nat} (reg : Registry)
    (exV : SchemaNode → Value → VMState → ExecRes)
    (hex : ∀ sub v, ErrF N (exV sub v)) (inst : Value) :
    ∀ (idxs : List Nat) (i : Nat), ErrF N (allOfLoop reg exV inst idxs i) := by
  intro idxs
  induction idxs with
  | nil => intro i st h; exact errB_ok h
  | cons idx rest ih =>
    intro i st h
    simp only [allOfLoop]
    split
    · exact errB_err (le_of_lt h)
    · apply errB_andThen
      · exact hex _ inst _ (by rw [errs_pushSchemaToken]; exact h)
      · intro st' h'
        exact ih (i + 1) _ (by rw [errs_popSchemaToken]; exact h')

theorem errF_allOfBlock {N : Nat} (reg : Registry)
    (exV : SchemaNode → Value → VMState → ExecRes)
    (hex : ∀ sub v, ErrF N (exV sub v)) (s : SchemaNode) (inst : Value) :
    ErrF N (allOfBlock reg exV s inst) := by
  intro st h
  simp only [allOfBlock]
  split
  · exact errB_ok h
  · apply errB_andThen
    · exact errF_allOfLoop reg exV hex inst _ 0 _ (by rw [errs_pushSchemaToken]; exact h)
    · intro st' h'
      exact errB_ok (by rw [errs_popSchemaToken]; exact h')

theorem errBB_anyOfLoop {N : Nat} (reg : Registry)
    (psV : SchemaNode → Value → VMState → (Bool × VMState) × Option GoErr)
    (hps : ∀ sub v st, st.errs.errors.length < N → ErrBB N (psV sub v st))
    (inst : Value) :
    ∀ (idxs : List Nat) (st : VMState), st.errs.errors.length < N →
      ErrBB N (anyOfLoop reg psV inst idxs st) := by
  intro idxs
  induction idxs with
  | nil => intro st h; exact errBB_ok h
  | cons idx rest ih =>
    intro st h
    simp only [anyOfLoop]
    split
    · exact errBB_err (le_of_lt h)
    · rename_i sub hgi
      split
      · rename_i b st2 heq
        have hbb := hps sub inst st h
        rw [heq] at hbb
        have h2 := hbb.2 rfl
        split
        · exact ih st2 h2
        · exact errBB_ok h2
      · exact hps sub inst st h

theorem errF_anyOfBlock {N : Nat} (reg : Registry)
    (psV : SchemaNode → Value → VMState → (Bool × VMState) × Option GoErr)
    (hps : ∀ sub v st, st.errs.errors.length < N → ErrBB N (psV sub v st))
    (s : SchemaNode) (inst : Value) : ErrF N (anyOfBlock reg N psV s inst) := by
  intro st h
  simp only [anyOfBlock]
  split
  · exact errB_ok h
  · rename_i idxs hkw
    split
    · rename_i ok st2 heq
      have hbb := errBB_anyOfLoop reg psV hps inst idxs st h
      rw [heq] at hbb
      exact errF_checkReport _ _ st2 (hbb.2 rfl)
    · rename_i st2 e heq
      have hbb := errBB_anyOfLoop reg psV hps inst idxs st h
      rw [heq] at hbb
      exact errB_err hbb.1

theorem errBB_oneOfLoop {N : Nat} (reg : Registry)
    (psV : SchemaNode → Value → VMState → (Bool × VMState) × Option GoErr)
    (hps : ∀ sub v st, st.errs.errors.length < N → ErrBB N (psV sub v st))
    (inst : Value) :
    ∀ (idxs : List Nat) (ok : Bool) (st : VMState), st.errs.errors.length < N →
      ErrBB N (oneOfLoop reg psV inst idxs ok st) := by
  intro idxs
  induction idxs with
  | nil => intro ok st h; exact errBB_ok h
  | cons idx rest ih =>
    intro ok st h
    simp only [oneOfLoop]
    split
    · exact errBB_err (le_of_lt h)
    · rename_i sub hgi
      split
      · rename_i b st2 heq
        have hbb := hps sub inst st h
        rw [heq] at hbb
        have h2 := hbb.2 rfl
        split
        · split
          · exact errBB_ok h2
          · exact ih true st2 h2
        · exact ih ok st2 h2
      · exact hps sub inst st h

theorem errF_oneOfBlock {N : Nat} (reg : Registry)
    (psV : SchemaNode → Value → VMState → (Bool × VMState) × Option GoErr)
    (hps : ∀ sub v st, st.errs.errors.length < N → ErrBB N (psV sub v st))
    (s : SchemaNode) (inst : Value) : ErrF N (oneOfBlock reg N psV s inst) := by
  intro st h
  simp only [oneOfBlock]
  split
  · exact errB_ok h
  · rename_i idxs hkw
    split
    · rename_i ok st2 heq
      have hbb := errBB_oneOfLoop reg psV hps inst idxs false st h
      rw [heq] at hbb
      exact errF_checkReport _ _ st2 (hbb.2 rfl)
    · rename_i st2 e heq
      have hbb := errBB_oneOfLoop reg psV hps inst idxs false st h
      rw [heq] at hbb
      exact errB_err hbb.1

theorem errF_execNumber {N : Nat} (s : SchemaNode) (q : ℚ) :
    ErrF N (execNumber N s q) := by
  intro st h
  simp only [execNumber]
  apply errB_andThen (errF_checkOpt _ _ _ st h); intro st1 h1
  apply errB_andThen (errF_checkOpt _ _ _ st1 h1); intro st2 h2
  apply errB_andThen (errF_checkOpt _ _ _ st2 h2); intro st3 h3
  apply errB_andThen (errF_checkOpt _ _ _ st3 h3); intro st4 h4
  apply errB_andThen (errF_checkOpt _ _ _ st4 h4); intro st5 h5
  exact errF_checkOpt _ _ _ st5 h5

theorem errF_execString {N : Nat} (s : SchemaNode) (v : String) :
    ErrF N (execString N s v) := by
  intro st h
  simp only [execString]
  apply errB_andThen (errF_checkOpt _ _ _ st h); intro st1 h1
  apply errB_andThen (errF_checkOpt _ _ _ st1 h1); intro st2 h2
  apply errB_andThen (errF_checkOpt _ _ _ st2 h2); intro st3 h3
  exact errF_checkOpt _ _ _ st3 h3

theorem errBB_containsLoop {N : Nat} (reg : Registry)
    (psV : SchemaNode → Value → VMState → (Bool × VMState) × Option GoErr)
    (hps : ∀ sub v st, st.errs.errors.length < N → ErrBB N (psV sub v st))
    (idx : Nat) :
    ∀ (elems : List Value) (st : VMState), st.errs.errors.length < N →
      ErrBB N (containsLoop reg psV idx elems st) := by
  intro elems
  induction elems with
  | nil => intro st h; exact errBB_ok h
  | cons elem rest ih =>
    intro st h
    simp only [containsLoop]
    split
    · exact errBB_err (le_of_lt h)
    · rename_i sub hgi
      split
      · rename_i b st2 heq
        have hbb := hps sub elem st h
        rw [heq] at hbb
        have h2 := hbb.2 rfl
        split
        · exact ih st2 h2
        · exact errBB_ok h2
      · exact hps sub elem st h

theorem errF_containsBlock {N : Nat} (reg : Registry)
    (psV : SchemaNode → Value → VMState → (Bool × VMState) × Option GoErr)
    (hps : ∀ sub v st, st.errs.errors.length < N → ErrBB N (psV sub v st))
    (s : SchemaNode) (val : List Value) : ErrF N (containsBlock reg N psV s val) := by
  intro st h
  simp only [containsBlock]
  split
  · exact errB_ok h
  · rename_i idx hkw
    split
    · rename_i ok st2 heq
      have hbb := errBB_containsLoop reg psV hps idx val st h
      rw [heq] at hbb
      exact errF_checkReport _ _ st2 (hbb.2 rfl)
    · rename_i st2 e heq
      have hbb := errBB_containsLoop reg psV hps idx val st h
      rw [heq] at hbb
      exact errB_err hbb.1

theorem errF_execElems {N : Nat}
    (exV : SchemaNode → Value → VMState → ExecRes)
    (hex : ∀ sub v, ErrF N (exV sub v)) (sub : SchemaNode) :
    ∀ (vs : List Value) (i : Nat), ErrF N (execElems exV sub vs i) := by
  intro vs
  induction vs with
  | nil => intro i st h; exact errB_ok h
  | cons v rest ih =>
    intro i st h
    simp only [execElems]
    apply errB_andThen
    · exact hex sub v _ (by rw [errs_pushInstanceToken]; exact h)
    · intro st' h'
      exact ih (i + 1) _ (by rw [errs_popInstanceToken]; exact h')

theorem errF_execTuple {N : Nat} (reg : Registry)
    (exV : SchemaNode → Value → VMState → ExecRes)
    (hex : ∀ sub v, ErrF N (exV sub v)) :
    ∀ (idxs : List Nat) (vs : List Value) (i : Nat),
      ErrF N (execTuple reg exV idxs vs i) := by
  intro idxs
  induction idxs with
  | nil => intro vs i st h; cases vs <;> exact errB_ok h
  | cons idx idxs ih =>
    intro vs i st h
    cases vs with
    | nil => exact errB_ok h
    | cons v vs =>
      simp only [execTuple]
      split
      · exact errB_err (le_of_lt h)
      · apply errB_andThen
        · exact hex _ v _
            (by rw [errs_pushSchemaToken, errs_pushInstanceToken]; exact h)
        · intro st' h'
          exact ih vs (i + 1) _
            (by rw [errs_popSchemaToken, errs_popInstanceToken]; exact h')

theorem errF_itemsBlock {N : Nat} (reg : Registry)
    (exV : SchemaNode → Value → VMState → ExecRes)
    (hex : ∀ sub v, ErrF N (exV sub v)) (s : SchemaNode) (val : List Value) :
    ErrF N (itemsBlock reg exV s val) := by
  intro st h
  simp only [itemsBlock]
  split
  · exact errB_ok h
  · split
    · split
      · exact errB_err (by rw [errs_pushSchemaToken]; exact le_of_lt h)
      · split
        · exact errB_err (by rw [errs_pushSchemaToken]; exact le_of_lt h)
        · apply errB_andThen
          · exact errF_execElems exV hex _ val 0 _
              (by rw [errs_pushSchemaToken]; exact h)
          · intro st' h'
            exact errB_ok (by rw [errs_popSchemaToken]; exact h')
    · apply errB_andThen
      · exact errF_execTuple reg exV hex _ val 0 _
          (by rw [errs_pushSchemaToken]; exact h)
      · intro st' h'
        split
        · exact errB_ok (by rw [errs_popSchemaToken]; exact h')
        · split
          · exact errB_err
              (by rw [errs_pushSchemaToken, errs_popSchemaToken]; exact le_of_lt h')
          · apply errB_andThen
            · exact errF_execElems exV hex _ _ _ _
                (by rw [errs_pushSchemaToken, errs_popSchemaToken]; exact h')
            · intro st'' h''
              exact errB_ok (by rw [errs_popSchemaToken]; exact h'')

theorem errF_execArray {N : Nat} (reg : Registry)
    (exV : SchemaNode → Value → VMState → ExecRes)
    (psV : SchemaNode → Value → VMState → (Bool × VMState) × Option GoErr)
    (hex : ∀ sub v, ErrF N (exV sub v))
    (hps : ∀ sub v st, st.errs.errors.length < N → ErrBB N (psV sub v st))
    (s : SchemaNode) (val : List Value) : ErrF N (execArray reg N exV psV s val) := by
  intro st h
  simp only [execArray]
  apply errB_andThen (errF_checkOpt _ _ _ st h); intro st1 h1
  apply errB_andThen (errF_checkOpt _ _ _ st1 h1); intro st2 h2
  apply errB_andThen (errF_checkOpt _ _ _ st2 h2); intro st3 h3
  apply errB_andThen ?_ ?_
  · split
    · exact errF_checkReport _ _ st3 h3
    · exact errB_ok h3
  · intro st4 h4
    apply errB_andThen (errF_containsBlock reg psV hps s val st4 h4)
    intro st5 h5
    exact errF_itemsBlock reg exV hex s val st5 h5

theorem errF_requiredLoop {N : Nat} (members : List (String × Value)) :
    ∀ (props : List String) (i : Nat), ErrF N (requiredLoop N members props i) := by
  intro props
  induction props with
  | nil => intro i st h; exact errB_ok h
  | cons prop rest ih =>
    intro i st h
    simp only [requiredLoop]
    split
    · exact ih _ st h
    · exact errB_andThen (errF_checkReport true _ st h) fun st' h' => ih _ st' h'

theorem errBB_patPropsLoop {N : Nat} (reg : Registry)
    (exV : SchemaNode → Value → VMState → ExecRes)
    (hex : ∀ sub v, ErrF N (exV sub v)) (key : String) (value : Value) :
    ∀ (pats : List (Regex × Nat)) (isAdd : Bool) (st : VMState),
      st.errs.errors.length < N →
      ErrBB N (patPropsLoop reg exV key value pats isAdd st) := by
  intro pats
  induction pats with
  | nil => intro isAdd st h; exact errBB_ok h
  | cons p rest ih =>
    rcases p with ⟨rx, idx⟩
    intro isAdd st h
    simp only [patPropsLoop]
    split
    · split
      · exact errBB_err (le_of_lt h)
      · rename_i sub hgi
        split
        · rename_i st2 heq
          have hb := hex sub value
            (pushInstanceToken (pushSchemaToken (pushSchemaToken st "patternProperties") rx.source) key)
            (by rw [errs_pushInstanceToken, errs_pushSchemaToken, errs_pushSchemaToken]; exact h)
          rw [heq] at hb
          exact ih false _
            (by rw [errs_popSchemaToken, errs_popSchemaToken, errs_popInstanceToken]
                exact hb.2 rfl)
        · rename_i st2 e heq
          have hb := hex sub value
            (pushInstanceToken (pushSchemaToken (pushSchemaToken st "patternProperties") rx.source) key)
            (by rw [errs_pushInstanceToken, errs_pushSchemaToken, errs_pushSchemaToken]; exact h)
          rw [heq] at hb
          exact errBB_err hb.1
    · exact ih isAdd st h

theorem errBB_propsStep {N : Nat} (reg : Registry)
    (exV : SchemaNode → Value → VMState → ExecRes)
    (hex : ∀ sub v, ErrF N (exV sub v))
    (props : Option (List (String × Nat))) (key : String) (value : Value)
    (st : VMState) (h : st.errs.errors.length < N) :
    ErrBB N (propsStep reg exV props key value st) := by
  simp only [propsStep]
  split
  · split
    · split
      · exact errBB_err (le_of_lt h)
      · rename_i sub hgi
        split
        · rename_i st2 heq
          have hb := hex sub value
            (pushInstanceToken (pushSchemaToken (pushSchemaToken st "properties") key) key)
            (by rw [errs_pushInstanceToken, errs_pushSchemaToken, errs_pushSchemaToken]; exact h)
          rw [heq] at hb
          exact errBB_ok
            (by rw [errs_popSchemaToken, errs_popSchemaToken, errs_popInstanceToken]
                exact hb.2 rfl)
        · rename_i st2 e heq
          have hb := hex sub value
            (pushInstanceToken (pushSchemaToken (pushSchemaToken st "properties") key) key)
            (by rw [errs_pushInstanceToken, errs_pushSchemaToken, errs_pushSchemaToken]; exact h)
          rw [heq] at hb
          exact errBB_err hb.1
    · exact errBB_ok h
  · exact errBB_ok h

theorem errBB_patStep {N : Nat} (reg : Registry)
    (exV : SchemaNode → Value → VMState → ExecRes)
    (hex : ∀ sub v, ErrF N (exV sub v))
    (patProps : Option (List (Regex × Nat))) (key : String) (value : Value)
    (isAdd : Bool) (st : VMState) (h : st.errs.errors.length < N) :
    ErrBB N (patStep reg exV patProps key value isAdd st) := by
  simp only [patStep]
  split
  · exact errBB_patPropsLoop reg exV hex key value _ isAdd st h
  · exact errBB_ok h

theorem errB_addStep {N : Nat} (reg : Registry)
    (exV : SchemaNode → Value → VMState → ExecRes)
    (hex : ∀ sub v, ErrF N (exV sub v))
    (addProps : Option Nat) (key : String) (value : Value)
    (isAdd : Bool) (st : VMState) (h : st.errs.errors.length < N) :
    ErrB N (addStep reg exV addProps key value isAdd st) := by
  simp only [addStep]
  split
  · split
    · split
      · exact errB_err (le_of_lt h)
      · rename_i sub hgi
        split
        · rename_i st2 heq
          have hb := hex sub value
            (pushInstanceToken (pushSchemaToken st "additionalProperties") key)
            (by rw [errs_pushInstanceToken, errs_pushSchemaToken]; exact h)
          rw [heq] at hb
          exact errB_ok
            (by rw [errs_popSchemaToken, errs_popInstanceToken]; exact hb.2 rfl)
        · exact hex sub value
            (pushInstanceToken (pushSchemaToken st "additionalProperties") key)
            (by rw [errs_pushInstanceToken, errs_pushSchemaToken]; exact h)
    · exact errB_ok h
  · exact errB_ok h

theorem errF_membersLoop {N : Nat} (reg : Registry)
    (exV : SchemaNode → Value → VMState → ExecRes)
    (hex : ∀ sub v, ErrF N (exV sub v))
    (props : Option (List (String × Nat))) (patProps : Option (List (Regex × Nat)))
    (addProps : Option Nat) :
    ∀ (members : List (String × Value)),
      ErrF N (membersLoop reg exV props patProps addProps members) := by
  intro members
  induction members with
  | nil => intro st h; exact errB_ok h
  | cons kv rest ih =>
    rcases kv with ⟨key, value⟩
    intro st h
    simp only [membersLoop]
    split
    · rename_i isAdd1 st1 heq1
      have hb1 := errBB_propsStep reg exV hex props key value st h
      rw [heq1] at hb1
      split
      · rename_i isAdd2 st2 heq2
        have hb2 := errBB_patStep reg exV hex patProps key value isAdd1 st1 (hb1.2 rfl)
        rw [heq2] at hb2
        apply errB_andThen
          (errB_addStep reg exV hex addProps key value isAdd2 st2 (hb2.2 rfl))
        intro st' h'
        exact ih st' h'
      · rename_i st2 e heq2
        have hb2 := errBB_patStep reg exV hex patProps key value isAdd1 st1 (hb1.2 rfl)
        rw [heq2] at hb2
        exact errB_err hb2.1
    · rename_i st1 e heq1
      have hb1 := errBB_propsStep reg exV hex props key value st h
      rw [heq1] at hb1
      exact errB_err hb1.1

theorem errF_depsLoop {N : Nat} (reg : Registry)
    (exV : SchemaNode → Value → VMState → ExecRes)
    (hex : ∀ sub v, ErrF N (exV sub v)) (members : List (String × Value)) :
    ∀ (deps : List (String × SchemaDep)), ErrF N (depsLoop reg N exV members deps) := by
  intro deps
  induction deps with
  | nil => intro st h; exact errB_ok h
  | cons kd rest ih =>
    rcases kd with ⟨key, dep⟩
    intro st h
    simp only [depsLoop]
    apply errB_andThen
    · split
      · split
        · split
          · exact errB_err (by rw [errs_pushSchemaToken]; exact le_of_lt h)
          · exact hex _ (.obj members) _ (by rw [errs_pushSchemaToken]; exact h)
        · exact errF_requiredLoop members _ 0 _
            (by rw [errs_pushSchemaToken]; exact h)
      · exact errB_ok (by rw [errs_pushSchemaToken]; exact h)
    · intro st' h'
      exact ih _ (by rw [errs_popSchemaToken]; exact h')

theorem errF_propNamesLoop {N : Nat}
    (exV : SchemaNode → Value → VMState → ExecRes)
    (hex : ∀ sub v, ErrF N (exV sub v)) (sub : SchemaNode) :
    ∀ (members : List (String × Value)), ErrF N (propNamesLoop exV sub members) := by
  intro members
  induction members with
  | nil => intro st h; exact errB_ok h
  | cons kv rest ih =>
    rcases kv with ⟨key, value⟩
    intro st h
    simp only [propNamesLoop]
    apply errB_andThen
    · exact hex sub (.str key) _ (by rw [errs_pushInstanceToken]; exact h)
    · intro st' h'
      exact ih _ (by rw [errs_popInstanceToken]; exact h')

theorem errF_execObject {N : Nat} (reg : Registry)
    (exV : SchemaNode → Value → VMState → ExecRes)
    (hex : ∀ sub v, ErrF N (exV sub v)) (s : SchemaNode)
    (val : List (String × Value)) : ErrF N (execObject reg N exV s val) := by
  intro st h
  simp only [execObject]
  apply errB_andThen (errF_checkOpt _ _ _ st h); intro st1 h1
  apply errB_andThen (errF_checkOpt _ _ _ st1 h1); intro st2 h2
  apply errB_andThen (errF_checkOpt _ _ _ st2 h2); intro st3 h3
  apply errB_andThen ?_ ?_
  · split
    · exact errB_ok h3
    · apply errB_andThen
      · exact errF_requiredLoop val _ 0 _ (by rw [errs_pushSchemaToken]; exact h3)
      · intro st' h'
        exact errB_ok (by rw [errs_popSchemaToken]; exact h')
  · intro st4 h4
    apply errB_andThen (errF_membersLoop reg exV hex _ _ _ val st4 h4)
    intro st5 h5
    apply errB_andThen ?_ ?_
    · split
      · exact errB_ok h5
      · apply errB_andThen
        · exact errF_depsLoop reg exV hex val _ _ (by rw [errs_pushSchemaToken]; exact h5)
        · intro st' h'
          exact errB_ok (by rw [errs_popSchemaToken]; exact h')
    · intro st6 h6
      split
      · exact errB_ok h6
      · split
        · exact errB_err (by rw [errs_pushSchemaToken]; exact le_of_lt h6)
        · apply errB_andThen
          · exact errF_propNamesLoop exV hex _ val _
              (by rw [errs_pushSchemaToken]; exact h6)
          · intro st' h'
            exact errB_ok (by rw [errs_popSchemaToken]; exact h')

theorem errF_execAfterRef {N : Nat} (reg : Registry)
    (exV : SchemaNode → Value → VMState → ExecRes)
    (psV : SchemaNode → Value → VMState → (Bool × VMState) × Option GoErr)
    (hex : ∀ sub v, ErrF N (exV sub v))
    (hps : ∀ sub v st, st.errs.errors.length < N → ErrBB N (psV sub v st))
    (s : SchemaNode) (inst : Value) : ErrF N (execAfterRef reg N exV psV s inst) := by
  intro st h
  simp only [execAfterRef]
  apply errB_andThen (errF_notBlock reg psV hps s inst st h); intro st1 h1
  apply errB_andThen (errF_ifBlock reg exV psV hex hps s inst st1 h1); intro st2 h2
  apply errB_andThen (errF_constBlock s inst st2 h2); intro st3 h3
  apply errB_andThen (errF_enumBlock s inst st3 h3); intro st4 h4
  apply errB_andThen (errF_allOfBlock reg exV hex s inst st4 h4); intro st5 h5
  apply errB_andThen (errF_anyOfBlock reg psV hps s inst st5 h5); intro st6 h6
  apply errB_andThen (errF_oneOfBlock reg psV hps s inst st6 h6); intro st7 h7
  cases inst with
  | null => exact errF_checkOpt _ _ _ st7 h7
  | bool b => exact errF_checkOpt _ _ _ st7 h7
  | num q => exact errF_execNumber s q st7 h7
  | str v => exact errF_execString s v st7 h7
  | arr val => exact errF_execArray reg exV psV hex hps s val st7 h7
  | obj val => exact errF_execObject reg exV hex s val st7 h7

theorem errBB_pseudoExecWith {N : Nat} (h0 : 0 < N)
    (exV : SchemaNode → Value → VMState → ExecRes)
    (hex : ∀ sub v, ErrF N (exV sub v)) :
    ∀ sub v st, st.errs.errors.length < N → ErrBB N (pseudoExecWith exV sub v st) := by
  intro sub v st h
  simp only [pseudoExecWith]
  split
  · rename_i st2 heq
    exact errBB_ok h
  · rename_i st2 e heq
    have hb := hex sub v { st with errs := ⟨false, []⟩ } (by simpa using h0)
    rw [heq] at hb
    exact errBB_err hb.1

theorem errF_execSchema {N : Nat} (reg : Registry) (maxD : Nat) (h0 : 0 < N) :
    ∀ (fuel : Nat) (s : SchemaNode) (inst : Value),
      ErrF N (execSchema reg maxD N fuel s inst) := by
  intro fuel
  induction fuel with
  | zero => intro s inst st h; exact errB_err (le_of_lt h)
  | succ fuel ih =>
    intro s inst st h
    simp only [execSchema]
    split
    · split
      · exact errB_ok h
      · exact errB_reportError h
    · apply errB_andThen (errF_refBlock reg maxD _ (fun sub v => ih sub v) s inst st h)
      intro st1 h1
      exact errF_execAfterRef reg _ _ (fun sub v => ih sub v)
        (errBB_pseudoExecWith h0 _ (fun sub v => ih sub v)) s inst st1 h1

theorem sentinelConv_ne (r : ExecRes) :
    (match r with
     | (st, some GoErr.maxErrorsSentinel) => (st, (none : Option GoErr))
     | r => r).2 ≠ some .maxErrorsSentinel := by
  rcases r with ⟨st, e⟩
  cases e with
  | none => simp
  | some e' => cases e' <;> simp

theorem vmExec_ne_sentinel (reg : Registry) (maxD maxE fuel : Nat) (uri : URL)
    (inst : Value) (st0 : VMState) :
    (vmExec reg maxD maxE fuel uri inst st0).2 ≠ some .maxErrorsSentinel := by
  simp only [vmExec]
  split
  · simp
  · split
    · simp
    · split
      · simp
      · exact sentinelConv_ne _

theorem vmExec_len_le {N : Nat} (reg : Registry) (maxD fuel : Nat) (uri : URL)
    (inst : Value) (h0 : 0 < N) :
    (vmExec reg maxD N fuel uri inst newVMState).1.errs.errors.length ≤ N := by
  simp only [vmExec]
  split
  · exact Nat.zero_le N
  · split
    · exact Nat.zero_le N
    · split
      · exact Nat.zero_le N
      · rename_i xg schema okb hget hite xf fragTokens hfrag
        have hb := errF_execSchema reg maxD h0 fuel schema inst
          (pushNewSchema newVMState uri fragTokens)
          (by rw [errs_pushNewSchema]; simpa [newVMState] using h0)
        split
        · rename_i st2 heq
          rw [heq] at hb
          exact hb.1
        · exact hb.1

/-- C4: with `max_errors = N > 0`, `validate` returns at most `N`
errors; the internal `errMaxErrors` sentinel that unwinds the evaluator
is converted back into a successful result and never escapes; and with
`max_errors = 0` the capping check in `reportError` never fires, so the
error count is not capped. -/
theorem maxErrorsCapsVisibleErrors :
    ∀ (v : GoValidator) (fuel : Nat) (uri : URL) (inst : Value),
      (0 < v.maxErrors →
        (ValidateURI v fuel uri inst).1.errors.length ≤ v.maxErrors) ∧
      (ValidateURI v fuel uri inst).2 ≠ some .maxErrorsSentinel ∧
      (∀ st : VMState, (reportError 0 st).2 = none) := by
  intro v fuel uri inst
  refine ⟨?_, ?_, ?_⟩
  · intro hN
    simp only [ValidateURI]
    split
    · rename_i st heq
      have hb := vmExec_len_le v.registry v.maxStackDepth fuel uri inst hN
      rw [heq] at hb
      exact hb
    · simp
  · simp only [ValidateURI]
    split
    · simp
    · rename_i st e heq
      have hs := vmExec_ne_sentinel v.registry v.maxStackDepth v.maxErrors fuel uri inst
        newVMState
      rw [heq] at hs
      simpa using hs
  · intro st
    simp only [reportError]
    split
    · next hc => simp at hc
    · rfl

/-- C4 witness: the cap statement applied at `max_errors = 3` on the
sealed self-reference validator. -/
theorem maxErrorsCapsWitness :
    (ValidateURI (GoValidator.mk selfRefReg 5 3) 10 emptyURL (.bool true)).1.errors.length ≤ 3 :=
  (maxErrorsCapsVisibleErrors (GoValidator.mk selfRefReg 5 3) 10 emptyURL (.bool true)).1
    (by decide)

theorem except_bind_ok {α β : Type} (a : α) (k : α → Except GoErr β) :
    (Except.ok a >>= k) = k a := rfl

theorem except_bind_err {α β : Type} (e : GoErr) (k : α → Except GoErr β) :
    ((Except.error e : Except GoErr α) >>= k) = .error e := rfl

theorem except_map_ok {α β : Type} (f : α → β) (a : α) :
    Except.map (ε := GoErr) f (.ok a) = .ok (f a) := rfl

theorem except_map_err {α β : Type} (f : α → β) (e : GoErr) :
    Except.map f ((.error e : Except GoErr α)) = (.error e : Except GoErr β) := rfl

theorem notMissingE_ok {α : Type} (a : α) : notMissingE (.ok a) :=
  fun l hc => Except.noConfusion hc

theorem nmInvalid {α : Type} : notMissingE (α := α) (.error .invalidSchema) :=
  fun l hc => by injection hc with h; exact GoErr.noConfusion h

theorem nmRefPtr {α : Type} : notMissingE (α := α) (.error .refPtrErr) :=
  fun l hc => by injection hc with h; exact GoErr.noConfusion h

theorem nmFuelOut {α : Type} : notMissingE (α := α) (.error .fuelOut) :=
  fun l hc => by injection hc with h; exact GoErr.noConfusion h

theorem nmPanic {α : Type} : notMissingE (α := α) (.error .panicIndex) :=
  fun l hc => by injection hc with h; exact GoErr.noConfusion h

theorem nmPtrParse {α : Type} : notMissingE (α := α) (.error .ptrParseErr) :=
  fun l hc => by injection hc with h; exact GoErr.noConfusion h

theorem nmPtrEval {α : Type} : notMissingE (α := α) (.error .ptrEvalErr) :=
  fun l hc => by injection hc with h; exact GoErr.noConfusion h

theorem notMissingE_bind {α β : Type} {r : Except GoErr α} {k : α → Except GoErr β}
    (hr : notMissingE r) (hk : ∀ a, notMissingE (k a)) : notMissingE (r >>= k) := by
  cases r with
  | error e =>
    rw [except_bind_err]
    exact fun l hc => hr l (by injection hc with h; rw [h])
  | ok a => rw [except_bind_ok]; exact hk a

theorem notMissingE_map {α β : Type} (f : α → β) {r : Except GoErr α}
    (hr : notMissingE r) : notMissingE (Except.map f r) := by
  cases r with
  | error e => rw [except_map_err]; exact fun l hc => hr l (by injection hc with h; rw [h])
  | ok a => rw [except_map_ok]; exact notMissingE_ok (f a)

theorem nm_parseJSONType (t : String) : notMissingE (parseJSONType t) := by
  simp only [parseJSONType]
  split
  · exact notMissingE_ok _
  · split
    · exact notMissingE_ok _
    · split
      · exact notMissingE_ok _
      · split
        · exact notMissingE_ok _
        · split
          · exact notMissingE_ok _
          · split
            · exact notMissingE_ok _
            · split
              · exact notMissingE_ok _
              · exact nmInvalid

theorem nm_parseTypeList : ∀ ts, notMissingE (parseTypeList ts) := by
  intro ts
  induction ts with
  | nil => exact notMissingE_ok _
  | cons v rest ih =>
    cases v with
    | str t =>
      simp only [parseTypeList]
      exact notMissingE_bind (nm_parseJSONType t) fun jt =>
        notMissingE_bind ih fun l2 => notMissingE_ok _
    | null => exact nmInvalid
    | bool b => exact nmInvalid
    | num q => exact nmInvalid
    | arr a => exact nmInvalid
    | obj o => exact nmInvalid

theorem nm_parseTypeKw (m : List (String × Value)) :
    notMissingE (parseTypeKw m) := by
  simp only [parseTypeKw]
  split
  · exact notMissingE_ok _
  · exact notMissingE_bind (nm_parseJSONType _) fun jt => notMissingE_ok _
  · exact notMissingE_bind (nm_parseTypeList _) fun l2 => notMissingE_ok _
  · exact nmInvalid

theorem nm_parseNumKw (m : List (String × Value)) (key : String) :
    notMissingE (parseNumKw m key) := by
  simp only [parseNumKw]
  split
  · exact notMissingE_ok _
  · exact notMissingE_ok _
  · exact nmInvalid

theorem nm_parseNatKw (m : List (String × Value)) (key : String) :
    notMissingE (parseNatKw m key) := by
  simp only [parseNatKw]
  split
  · exact notMissingE_ok _
  · split
    · exact nmInvalid
    · split
      · exact nmInvalid
      · exact notMissingE_ok _
  · exact nmInvalid

theorem nm_parseBoolKw (m : List (String × Value)) (key : String) :
    notMissingE (parseBoolKw m key) := by
  simp only [parseBoolKw]
  split
  · exact notMissingE_ok _
  · exact notMissingE_ok _
  · exact nmInvalid

theorem nm_parseStrList : ∀ vs, notMissingE (parseStrList vs) := by
  intro vs
  induction vs with
  | nil => exact notMissingE_ok _
  | cons v rest ih =>
    cases v with
    | str t =>
      simp only [parseStrList]
      exact notMissingE_bind ih fun l2 => notMissingE_ok _
    | null => exact nmInvalid
    | bool b => exact nmInvalid
    | num q => exact nmInvalid
    | arr a => exact nmInvalid
    | obj o => exact nmInvalid

theorem nm_parseIdKw (baseURI : URL) (tokens : List String)
    (m : List (String × Value)) : notMissingE (parseIdKw baseURI tokens m) := by
  simp only [parseIdKw]
  split
  · split
    · exact notMissingE_ok _
    · exact notMissingE_ok _
    · exact nmInvalid
  · exact notMissingE_ok _

theorem nm_parseRefKw (baseURI : URL) (m : List (String × Value)) :
    notMissingE (parseRefKw baseURI m) := by
  simp only [parseRefKw]
  split
  · exact notMissingE_ok _
  · split
    · exact nmRefPtr
    · exact notMissingE_ok _
  · exact nmInvalid

theorem nm_parseEnumKw (m : List (String × Value)) :
    notMissingE (parseEnumKw m) := by
  simp only [parseEnumKw]
  split
  · exact notMissingE_ok _
  · exact notMissingE_ok _
  · exact nmInvalid

theorem nm_parsePatternKw (m : List (String × Value)) :
    notMissingE (parsePatternKw m) := by
  simp only [parsePatternKw]
  split
  · exact notMissingE_ok _
  · split
    · exact notMissingE_ok _
    · exact nmInvalid
  · exact nmInvalid

theorem nm_parseReqdKw (m : List (String × Value)) :
    notMissingE (parseReqdKw m) := by
  simp only [parseReqdKw]
  split
  · exact notMissingE_ok _
  · exact notMissingE_map some (nm_parseStrList _)
  · exact nmInvalid

theorem nm_parseSubKw (p : ParseFn)
    (hp : ∀ b t v r, notMissingE (p b t v r))
    (baseURI : URL) (tokens : List String) (m : List (String × Value))
    (key : String) (reg : Registry) :
    notMissingE (parseSubKw p baseURI tokens m key reg) := by
  simp only [parseSubKw]
  split
  · exact notMissingE_ok _
  · exact notMissingE_bind (hp _ _ _ _) fun r => notMissingE_ok _

theorem nm_parseIdxList (p : ParseFn)
    (hp : ∀ b t v r, notMissingE (p b t v r))
    (baseURI : URL) (tokens : List String) :
    ∀ (vals : List Value) (i : Nat) (reg : Registry),
      notMissingE (parseIdxList p baseURI tokens vals i reg) := by
  intro vals
  induction vals with
  | nil => intro i reg; exact notMissingE_ok _
  | cons v rest ih =>
    intro i reg
    simp only [parseIdxList]
    exact notMissingE_bind (hp _ _ _ _) fun r =>
      notMissingE_bind (ih _ _) fun r2 => notMissingE_ok _

theorem nm_parseItemsKw (p : ParseFn)
    (hp : ∀ b t v r, notMissingE (p b t v r))
    (baseURI : URL) (tokens : List String) (m : List (String × Value))
    (reg : Registry) : notMissingE (parseItemsKw p baseURI tokens m reg) := by
  simp only [parseItemsKw]
  split
  · exact notMissingE_ok _
  · exact notMissingE_bind (nm_parseIdxList p hp _ _ _ _ _) fun r => notMissingE_ok _
  · exact notMissingE_bind (hp _ _ _ _) fun r => notMissingE_ok _

theorem nm_parsePropsList (p : ParseFn)
    (hp : ∀ b t v r, notMissingE (p b t v r))
    (baseURI : URL) (tokens : List String) :
    ∀ (props : List (String × Value)) (reg : Registry),
      notMissingE (parsePropsList p baseURI tokens props reg) := by
  intro props
  induction props with
  | nil => intro reg; exact notMissingE_ok _
  | cons kv rest ih =>
    rcases kv with ⟨name, v⟩
    intro reg
    simp only [parsePropsList]
    exact notMissingE_bind (hp _ _ _ _) fun r =>
      notMissingE_bind (ih _) fun r2 => notMissingE_ok _

theorem nm_parsePatProps (p : ParseFn)
    (hp : ∀ b t v r, notMissingE (p b t v r))
    (baseURI : URL) (tokens : List String) :
    ∀ (props : List (String × Value)) (reg : Registry),
      notMissingE (parsePatProps p baseURI tokens props reg) := by
  intro props
  induction props with
  | nil => intro reg; exact notMissingE_ok _
  | cons kv rest ih =>
    rcases kv with ⟨name, v⟩
    intro reg
    simp only [parsePatProps]
    split
    · exact nmInvalid
    · exact notMissingE_bind (hp _ _ _ _) fun r =>
        notMissingE_bind (ih _) fun r2 => notMissingE_ok _

theorem nm_parseDepsList (p : ParseFn)
    (hp : ∀ b t v r, notMissingE (p b t v r))
    (baseURI : URL) (tokens : List String) :
    ∀ (deps : List (String × Value)) (reg : Registry),
      notMissingE (parseDepsList p baseURI tokens deps reg) := by
  intro deps
  induction deps with
  | nil => intro reg; exact notMissingE_ok _
  | cons kv rest ih =>
    rcases kv with ⟨key, v⟩
    intro reg
    cases v with
    | arr vals =>
      simp only [parseDepsList]
      exact notMissingE_bind (nm_parseStrList vals) fun names =>
        notMissingE_bind (ih _) fun r2 => notMissingE_ok _
    | null =>
      exact notMissingE_bind (hp _ _ _ _) fun r =>
        notMissingE_bind (ih _) fun r2 => notMissingE_ok _
    | bool b =>
      exact notMissingE_bind (hp _ _ _ _) fun r =>
        notMissingE_bind (ih _) fun r2 => notMissingE_ok _
    | num q =>
      exact notMissingE_bind (hp _ _ _ _) fun r =>
        notMissingE_bind (ih _) fun r2 => notMissingE_ok _
    | str t =>
      exact notMissingE_bind (hp _ _ _ _) fun r =>
        notMissingE_bind (ih _) fun r2 => notMissingE_ok _
    | obj o =>
      exact notMissingE_bind (hp _ _ _ _) fun r =>
        notMissingE_bind (ih _) fun r2 => notMissingE_ok _

theorem nm_parsePropsKw (p : ParseFn)
    (hp : ∀ b t v r, notMissingE (p b t v r))
    (baseURI : URL) (tokens : List String) (m : List (String × Value))
    (reg : Registry) : notMissingE (parsePropsKw p baseURI tokens m reg) := by
  simp only [parsePropsKw]
  split
  · exact notMissingE_ok _
  · exact notMissingE_bind (nm_parsePropsList p hp _ _ _ _) fun r => notMissingE_ok _
  · exact nmInvalid

theorem nm_parsePatPropsKw (p : ParseFn)
    (hp : ∀ b t v r, notMissingE (p b t v r))
    (baseURI : URL) (tokens : List String) (m : List (String × Value))
    (reg : Registry) : notMissingE (parsePatPropsKw p baseURI tokens m reg) := by
  simp only [parsePatPropsKw]
  split
  · exact notMissingE_ok _
  · exact notMissingE_bind (nm_parsePatProps p hp _ _ _ _) fun r => notMissingE_ok _
  · exact nmInvalid

theorem nm_parseDepsKw (p : ParseFn)
    (hp : ∀ b t v r, notMissingE (p b t v r))
    (baseURI : URL) (tokens : List String) (m : List (String × Value))
    (reg : Registry) : notMissingE (parseDepsKw p baseURI tokens m reg) := by
  simp only [parseDepsKw]
  split
  · exact notMissingE_ok _
  · exact notMissingE_bind (nm_parseDepsList p hp _ _ _ _) fun r => notMissingE_ok _
  · exact nmInvalid

theorem nm_parseSchemaListKw (p : ParseFn)
    (hp : ∀ b t v r, notMissingE (p b t v r))
    (baseURI : URL) (tokens : List String) (m : List (String × Value))
    (key : String) (reg : Registry) :
    notMissingE (parseSchemaListKw p baseURI tokens m key reg) := by
  simp only [parseSchemaListKw]
  split
  · exact notMissingE_ok _
  · exact notMissingE_bind (nm_parseIdxList p hp _ _ _ _ _) fun r => notMissingE_ok _
  · exact nmInvalid

theorem nm_parseVal :
    ∀ (fuel : Nat) (baseURI : URL) (tokens : List String) (input : Value)
      (reg : Registry), notMissingE (parseVal fuel baseURI tokens input reg) := by
  intro fuel
  induction fuel with
  | zero => intro b t v r; exact nmFuelOut
  | succ fuel ih =>
    intro baseURI tokens input reg
    cases input with
    | null => exact nmInvalid
    | bool b => exact notMissingE_ok _
    | num q => exact nmInvalid
    | str s => exact nmInvalid
    | arr a => exact nmInvalid
    | obj m =>
      simp only [parseVal]
      apply notMissingE_bind (nm_parseIdKw baseURI tokens m); intro idp
      apply notMissingE_bind (nm_parseRefKw _ m); intro ref
      apply notMissingE_bind (nm_parseSubKw _ ih _ _ m _ _); intro rNot
      apply notMissingE_bind (nm_parseSubKw _ ih _ _ m _ _); intro rIf
      apply notMissingE_bind (nm_parseSubKw _ ih _ _ m _ _); intro rThen
      apply notMissingE_bind (nm_parseSubKw _ ih _ _ m _ _); intro rElse
      apply notMissingE_bind (nm_parseTypeKw m); intro typ
      apply notMissingE_bind (nm_parseItemsKw _ ih _ _ m _); intro rItems
      apply notMissingE_bind (nm_parseEnumKw m); intro enumV
      apply notMissingE_bind (nm_parseNumKw m _); intro mult
      apply notMissingE_bind (nm_parseNumKw m _); intro maxV
      apply notMissingE_bind (nm_parseNumKw m _); intro minV
      apply notMissingE_bind (nm_parseNumKw m _); intro exMax
      apply notMissingE_bind (nm_parseNumKw m _); intro exMin
      apply notMissingE_bind (nm_parseNatKw m _); intro maxLen
      apply notMissingE_bind (nm_parseNatKw m _); intro minLen
      apply notMissingE_bind (nm_parsePatternKw m); intro pat
      apply notMissingE_bind (nm_parseSubKw _ ih _ _ m _ _); intro rAddItems
      apply notMissingE_bind (nm_parseNatKw m _); intro maxIt
      apply notMissingE_bind (nm_parseNatKw m _); intro minIt
      apply notMissingE_bind (nm_parseBoolKw m _); intro uniq
      apply notMissingE_bind (nm_parseSubKw _ ih _ _ m _ _); intro rContains
      apply notMissingE_bind (nm_parseNatKw m _); intro maxProps
      apply notMissingE_bind (nm_parseNatKw m _); intro minProps
      apply notMissingE_bind (nm_parseReqdKw m); intro reqd
      apply notMissingE_bind (nm_parsePropsKw _ ih _ _ m _); intro rProps
      apply notMissingE_bind (nm_parsePatPropsKw _ ih _ _ m _); intro rPatProps
      apply notMissingE_bind (nm_parseSubKw _ ih _ _ m _ _); intro rAddProps
      apply notMissingE_bind (nm_parseDepsKw _ ih _ _ m _); intro rDeps
      apply notMissingE_bind (nm_parseSubKw _ ih _ _ m _ _); intro rPropNames
      apply notMissingE_bind (nm_parseSchemaListKw _ ih _ _ m _ _); intro rAllOf
      apply notMissingE_bind (nm_parseSchemaListKw _ ih _ _ m _ _); intro rAnyOf
      apply notMissingE_bind (nm_parseSchemaListKw _ ih _ _ m _ _); intro rOneOf
      exact notMissingE_ok _

theorem nm_parseRootNode (fuel : Nat) (input : Value) (reg : Registry) :
    notMissingE (parseRootNode fuel input reg) := by
  simp only [parseRootNode]
  apply notMissingE_bind (nm_parseVal fuel _ _ input reg)
  intro r
  split
  · exact notMissingE_ok _
  · exact nmPanic

theorem nm_sealDocs (pfuel : Nat) :
    ∀ (docs : List Value) (raw : List (URL × Value)) (reg : Registry),
      notMissingE (sealDocs pfuel docs raw reg) := by
  intro docs
  induction docs with
  | nil => intro raw reg; exact notMissingE_ok _
  | cons d rest ih =>
    intro raw reg
    simp only [sealDocs]
    exact notMissingE_bind (nm_parseRootNode pfuel d reg) fun r => ih _ _

theorem nm_sealPass (pfuel : Nat) (raw : List (URL × Value)) :
    ∀ (uris und : List URL) (reg : Registry),
      notMissingE (sealPass pfuel raw uris und reg) := by
  intro uris
  induction uris with
  | nil => intro und reg; exact notMissingE_ok _
  | cons uri rest ih =>
    intro und reg
    simp only [sealPass]
    split
    · split
      · exact nmPtrParse
      · split
        · exact nmPtrEval
        · exact notMissingE_bind (nm_parseVal pfuel _ _ _ _) fun r => ih _ _
    · exact ih _ _


theorem populateRefsAux_missing (sch : List (URL × Nat)) :
    ∀ ar : List SchemaNode,
      (populateRefsAux sch ar).1 = ar.filterMap fun s =>
        match s.ref with
        | some rf => if (lookupURL sch rf.uri).isSome then none else some rf.uri
        | none => none := by
  intro ar
  induction ar with
  | nil => rfl
  | cons a rest ih =>
    cases ha : a.ref with
    | none => simp [populateRefsAux, ha, ih]
    | some rf =>
      cases hlk : lookupURL sch rf.uri with
      | none => simp [populateRefsAux, ha, hlk, ih]
      | some idx => simp [populateRefsAux, ha, hlk, ih]

theorem populateRefs_missing (r0 : Registry) :
    r0.populateRefs.1 = missingSpec r0 := by
  simp only [Registry.populateRefs, missingSpec]
  exact populateRefsAux_missing r0.schemas r0.arena

theorem populateRefsAux_resolved (sch : List (URL × Nat)) :
    ∀ ar : List SchemaNode, (populateRefsAux sch ar).1 = [] →
      ∀ s ∈ (populateRefsAux sch ar).2, ∀ rf : SchemaRef, s.ref = some rf →
        lookupURL sch rf.uri = some rf.schema := by
  intro ar
  induction ar with
  | nil => intro hnil s hs; simp [populateRefsAux] at hs
  | cons a rest ih =>
    intro hnil s hs rf hrf
    cases ha : a.ref with
    | none =>
      simp only [populateRefsAux, ha] at hnil hs
      rcases List.mem_cons.mp hs with rfl | hs2
      · rw [ha] at hrf; exact Option.noConfusion hrf
      · exact ih hnil s hs2 rf hrf
    | some rf0 =>
      simp only [populateRefsAux, ha] at hnil hs
      cases hlk : lookupURL sch rf0.uri with
      | none =>
        simp only [hlk] at hnil
        exact absurd hnil (by simp)
      | some refIndex =>
        simp only [hlk] at hnil hs
        rcases List.mem_cons.mp hs with rfl | hs2
        · have hrf2 : some ({ rf0 with schema := refIndex } : SchemaRef) = some rf := hrf
          cases hrf2
          exact hlk
        · exact ih hnil s hs2 rf hrf

theorem populateRefs_resolved (r0 reg : Registry)
    (h : r0.populateRefs = ([], reg)) : refsResolved reg := by
  have h1 : (populateRefsAux r0.schemas r0.arena).1 = [] := congrArg Prod.fst h
  have h2 : ({ r0 with arena := (populateRefsAux r0.schemas r0.arena).2 } : Registry) = reg :=
    congrArg Prod.snd h
  subst h2
  intro s hs rf hrf
  exact populateRefsAux_resolved r0.schemas r0.arena h1 s hs rf hrf

theorem undefinedBases_cons_found (raw : List (URL × Value)) (u : URL) (rest : List URL)
    (h : (lookupRaw raw (clearFragment u)).isSome = true) :
    undefinedBases raw (u :: rest) = undefinedBases raw rest := by
  simp [undefinedBases, h]

theorem undefinedBases_cons_missing (raw : List (URL × Value)) (u : URL) (rest : List URL)
    (h : lookupRaw raw (clearFragment u) = none) :
    undefinedBases raw (u :: rest) = clearFragment u :: undefinedBases raw rest := by
  simp [undefinedBases, h]

theorem mem_undefinedBases (raw : List (URL × Value)) (missing : List URL) (u : URL)
    (hu : u ∈ undefinedBases raw missing) :
    u.fragment = "" ∧ lookupRaw raw u = none := by
  simp only [undefinedBases, List.mem_filterMap] at hu
  rcases hu with ⟨a, ha, hfa⟩
  by_cases h : (lookupRaw raw (clearFragment a)).isSome
  · rw [if_pos h] at hfa
    exact Option.noConfusion hfa
  · rw [if_neg h] at hfa
    injection hfa with h2
    subst h2
    refine ⟨rfl, ?_⟩
    cases hl : lookupRaw raw (clearFragment a) with
    | none => rfl
    | some v => rw [hl] at h; simp at h

theorem sealPass_ok_und (pfuel : Nat) (raw : List (URL × Value)) :
    ∀ (uris und0 : List URL) (reg : Registry) (out : List URL × Registry),
      sealPass pfuel raw uris und0 reg = .ok out →
      out.1 = und0 ++ undefinedBases raw uris := by
  intro uris
  induction uris with
  | nil =>
    intro und0 reg out hok
    simp only [sealPass] at hok
    injection hok with h
    subst h
    simp [undefinedBases]
  | cons uri rest ih =>
    intro und0 reg out hok
    simp only [sealPass] at hok
    split at hok
    · rename_i rawSchema hlr
      split at hok
      · exact Except.noConfusion hok
      · rename_i toks hpp
        split at hok
        · exact Except.noConfusion hok
        · rename_i sub hpe
          rcases hpv : parseVal pfuel (clearFragment uri) toks sub reg with e | r
          · rw [hpv, except_bind_err] at hok
            exact Except.noConfusion hok
          · rw [hpv, except_bind_ok] at hok
            rw [undefinedBases_cons_found raw uri rest (by rw [hlr]; rfl)]
            exact ih und0 r.2 out hok
    · rename_i hlr
      have h2 := ih (und0 ++ [clearFragment uri]) reg out hok
      rw [undefinedBases_cons_missing raw uri rest hlr, h2]
      simp

theorem sealLoop_spec (pfuel : Nat) (raw : List (URL × Value)) :
    ∀ (fuel : Nat) (missing : List URL) (reg : Registry),
      (∃ r0 : Registry, r0.populateRefs = (missing, reg)) →
      (∀ out, sealLoop pfuel raw fuel missing reg = .ok out → refsResolved out) ∧
      (∀ l, sealLoop pfuel raw fuel missing reg = .error (.missingURIs l) →
        l ≠ [] ∧ (∀ u ∈ l, u.fragment = "" ∧ lookupRaw raw u = none) ∧
        ∃ r0 : Registry, l = undefinedBases raw (missingSpec r0)) := by
  intro fuel
  induction fuel with
  | zero =>
    intro missing reg hinv
    constructor
    · intro out hok; exact Except.noConfusion hok
    · intro l herr
      simp [sealLoop] at herr
  | succ fuel ih =>
    intro missing reg hinv
    constructor
    · intro out hok
      simp only [sealLoop] at hok
      split at hok
      · rename_i hemp
        injection hok with h
        subst h
        rcases hinv with ⟨r0, hr0⟩
        cases missing with
        | cons a as => simp at hemp
        | nil => exact populateRefs_resolved r0 reg hr0
      · rename_i hemp
        rcases hsp : sealPass pfuel raw missing [] reg with e | pass
        · rw [hsp, except_bind_err] at hok
          exact Except.noConfusion hok
        · rw [hsp, except_bind_ok] at hok
          split at hok
          · exact (ih _ _ ⟨pass.2, rfl⟩).1 out hok
          · exact Except.noConfusion hok
    · intro l herr
      simp only [sealLoop] at herr
      split at herr
      · exact Except.noConfusion herr
      · rename_i hemp
        rcases hsp : sealPass pfuel raw missing [] reg with e | pass
        · rw [hsp, except_bind_err] at herr
          injection herr with he
          subst he
          exact absurd hsp (nm_sealPass pfuel raw missing [] reg l)
        · rw [hsp, except_bind_ok] at herr
          split at herr
          · exact (ih _ _ ⟨pass.2, rfl⟩).2 l herr
          · rename_i hpe
            have hl : pass.1 = l := by
              injection herr with h
              injection h
            subst hl
            have h4 := sealPass_ok_und pfuel raw missing [] reg pass hsp
            rw [List.nil_append] at h4
            refine ⟨?_, ?_, ?_⟩
            · intro hnil
              rw [hnil] at hpe
              exact hpe rfl
            · intro u hu
              rw [h4] at hu
              exact mem_undefinedBases raw missing u hu
            · rcases hinv with ⟨r0, hr0⟩
              have hm : missing = missingSpec r0 := by
                have h3 := populateRefs_missing r0
                rw [hr0] at h3
                exact h3
              refine ⟨r0, ?_⟩
              rw [h4, hm]

/-- C5: if sealing succeeds every `$ref` node's target index is the
registry's index of its target URI; a `MissingURIs` failure carries a
nonempty list of fragment-less base URIs without raw documents, obtained
from some pass's missing list (one entry per referring node, in arena
discovery order) by keeping the undefined bases. -/
theorem sealResolvesRefsOrReportsMissing :
    ∀ (pfuel lfuel : Nat) (docs : List Value),
      (∀ reg, sealValidator pfuel lfuel docs = .ok reg → refsResolved reg) ∧
      (∀ l, sealValidator pfuel lfuel docs = .error (.missingURIs l) →
        l ≠ [] ∧ ∃ (raw : List (URL × Value)) (r0 : Registry),
          l = undefinedBases raw (missingSpec r0) ∧
          ∀ u ∈ l, u.fragment = "" ∧ lookupRaw raw u = none) := by
  intro pfuel lfuel docs
  constructor
  · intro reg hok
    simp only [sealValidator] at hok
    rcases hsd : sealDocs pfuel docs [] {} with e | r
    · rw [hsd, except_bind_err] at hok
      exact Except.noConfusion hok
    · rw [hsd, except_bind_ok] at hok
      exact (sealLoop_spec pfuel r.1 lfuel _ _ ⟨r.2, rfl⟩).1 reg hok
  · intro l herr
    simp only [sealValidator] at herr
    rcases hsd : sealDocs pfuel docs [] {} with e | r
    · rw [hsd, except_bind_err] at herr
      injection herr with he
      subst he
      exact absurd hsd (nm_sealDocs pfuel docs [] {} l)
    · rw [hsd, except_bind_ok] at herr
      have h2 := (sealLoop_spec pfuel r.1 lfuel _ _ ⟨r.2, rfl⟩).2 l herr
      rcases h2 with ⟨hne, hprops, r0, hchar⟩
      exact ⟨hne, r.1, r0, hchar, hprops⟩

/-- C5 witness: the success side applied to the sealed self-reference
document, whose single `$ref` is resolved to arena index `0`. -/
theorem sealResolvesWitness : refsResolved selfRefReg :=
  (sealResolvesRefsOrReportsMissing 10 10 [selfRefDoc]).1 selfRefReg (by rfl)
end JGo
